import Mathlib

/-!
Verification development for the raycaster-go camera engine (`camera.go`).

The Go code computes with `float64`; this embedding models those values in an
arbitrary linear ordered field with a floor function (instantiated at `ℚ` for
concrete runs and at `ℝ` where trigonometry is needed).  IEEE infinities, which
arise in the code only as `deltaDist = Abs(1/0) = +Inf` for axis-parallel rays,
are modelled by `WithTop α`; as proved in the comments at the relevant
definitions, the NaN-producing combinations (`0 * Inf`) are unreachable there,
so the `WithTop` order (`⊤` is not less than anything, everything finite is
less than `⊤`) agrees with the IEEE comparisons the Go loop performs.
Go's `int(x)` float-to-int conversion truncates toward zero (`goInt`), and Go's
integer division also truncates toward zero, so it is modelled by `Int.tdiv`.
-/

/-- A 2D vector, mirroring `geom.Vector2` (a plain struct with `X Y float64`). -/
structure Vec2 (α : Type) where
  x : α
  y : α
deriving DecidableEq

/-- Go's `int(x)` conversion from `float64`: truncation toward zero. -/
def goInt {α : Type} [LinearOrderedField α] [FloorRing α] (a : α) : ℤ :=
  if a < 0 then Int.ceil a else Int.floor a

/-- The `edgeDistance` constant from `camera.go` (0.1): distance kept between
the camera and the edge of the world. -/
def edgeDist {α : Type} [LinearOrderedField α] : α := 1 / 10

/-- Grid cell lookup `grid[mx][my]`.  The Go code only indexes after its bounds
check against `mapWidth`/`mapHeight`, so the `getD` defaults are never relevant
on the paths modelled here. -/
def gridAt (grid : List (List ℤ)) (mx my : ℤ) : ℤ :=
  (grid.getD mx.toNat []).getD my.toNat 0

/-- The camera data consumed by `castLevel`: viewport width `w`, pose (`pos`,
`dir`, `plane`), the map dimensions (`NewCamera` sets both `mapWidth` and
`mapHeight` to `len(mapObj.Level(0))`) and the current level's grid. -/
structure DDACfg (α : Type) where
  w : ℕ
  pos : Vec2 α
  dir : Vec2 α
  plane : Vec2 α
  mapWidth : ℤ
  mapHeight : ℤ
  grid : List (List ℤ)
deriving DecidableEq

/-- Camera-space x for screen column `x`: `cameraX = 2*x/w - 1` (camera.go:237). -/
def cameraX {α : Type} [LinearOrderedField α] (cfg : DDACfg α) (x : ℕ) : α :=
  2 * (x : α) / (cfg.w : α) - 1

/-- Ray direction x component: `rayDirX = dir.X + plane.X*cameraX` (camera.go:238). -/
def rayDirX {α : Type} [LinearOrderedField α] (cfg : DDACfg α) (x : ℕ) : α :=
  cfg.dir.x + cfg.plane.x * cameraX cfg x

/-- Ray direction y component: `rayDirY = dir.Y + plane.Y*cameraX` (camera.go:239). -/
def rayDirY {α : Type} [LinearOrderedField α] (cfg : DDACfg α) (x : ℕ) : α :=
  cfg.dir.y + cfg.plane.y * cameraX cfg x

/-- State of the DDA loop of `castLevel` (camera.go:246-304).  `deltaDistX/Y`
and `sideDistX/Y` live in `WithTop α`: `⊤` models the IEEE `+Inf` produced by
`math.Abs(1/rayDir)` when the ray direction component is zero. -/
structure DDAState (α : Type) where
  mapX : ℤ
  mapY : ℤ
  stepX : ℤ
  stepY : ℤ
  deltaDistX : WithTop α
  deltaDistY : WithTop α
  sideDistX : WithTop α
  sideDistY : WithTop α
  side : ℤ
  hit : ℤ
deriving DecidableEq

/-- Bounds check of the DDA loop:
`mapX >= 0 && mapY >= 0 && mapX < c.mapWidth && mapY < c.mapHeight`
(camera.go:296). -/
def inBounds {α : Type} (cfg : DDACfg α) (mx my : ℤ) : Bool :=
  decide (0 ≤ mx ∧ 0 ≤ my ∧ mx < cfg.mapWidth ∧ my < cfg.mapHeight)

/-- Initial DDA state for screen column `x` (camera.go:246-280).
`deltaDist = Abs(1/rayDir)` is `+Inf` (here `⊤`) exactly when the ray
direction component is zero.  In the `step = +1` branch the factor
`float64(map)+1.0-rayPos` is strictly positive (it lies in `(0, 2]` because
`map` is the truncation of `rayPos`), and in the `step = -1` branch
`rayDir < 0` forces `deltaDist` finite, so the Go code never multiplies
`0 * Inf`; hence `WithTop.map` (which keeps `⊤`) models the IEEE product
faithfully on all reachable inputs. -/
def ddaInit {α : Type} [LinearOrderedField α] [FloorRing α]
    (cfg : DDACfg α) (x : ℕ) : DDAState α :=
  let rdx := rayDirX cfg x
  let rdy := rayDirY cfg x
  let mapX := goInt cfg.pos.x
  let mapY := goInt cfg.pos.y
  let ddx : WithTop α := if rdx = 0 then ⊤ else (↑|1 / rdx| : WithTop α)
  let ddy : WithTop α := if rdy = 0 then ⊤ else (↑|1 / rdy| : WithTop α)
  let sx : ℤ := if rdx < 0 then -1 else 1
  let sdx : WithTop α :=
    if rdx < 0 then WithTop.map (fun d => (cfg.pos.x - (mapX : α)) * d) ddx
    else WithTop.map (fun d => ((mapX : α) + 1 - cfg.pos.x) * d) ddx
  let sy : ℤ := if rdy < 0 then -1 else 1
  let sdy : WithTop α :=
    if rdy < 0 then WithTop.map (fun d => (cfg.pos.y - (mapY : α)) * d) ddy
    else WithTop.map (fun d => ((mapY : α) + 1 - cfg.pos.y) * d) ddy
  ⟨mapX, mapY, sx, sy, ddx, ddy, sdx, sdy, -1, 0⟩

/-- First half of the DDA loop body (camera.go:284-293): jump to the next map
square in x or in y direction, whichever grid-line crossing is nearer. -/
def ddaAdvance {α : Type} [LinearOrderedField α] (st : DDAState α) :
    DDAState α :=
  if st.sideDistX < st.sideDistY then
    { st with sideDistX := st.sideDistX + st.deltaDistX,
              mapX := st.mapX + st.stepX, side := 0 }
  else
    { st with sideDistY := st.sideDistY + st.deltaDistY,
              mapY := st.mapY + st.stepY, side := 1 }

/-- Second half of the DDA loop body (camera.go:295-303): check whether the
ray has hit a wall (`hit = 1`) or left the grid (`hit = 2`). -/
def ddaCheck {α : Type} (cfg : DDACfg α) (st1 : DDAState α) : DDAState α :=
  if inBounds cfg st1.mapX st1.mapY then
    (if 0 < gridAt cfg.grid st1.mapX st1.mapY then { st1 with hit := 1 } else st1)
  else
    { st1 with hit := 2 }

/-- One iteration of the DDA loop body (camera.go:283-303). -/
def ddaStep {α : Type} [LinearOrderedField α] (cfg : DDACfg α)
    (st : DDAState α) : DDAState α :=
  ddaCheck cfg (ddaAdvance st)

/-- The DDA loop `for hit == 0 { ... }` (camera.go:283), with an explicit fuel
parameter; `none` means the fuel ran out before the loop finished.  The
termination theorem for claim C10 shows that `ddaFuel` is always enough. -/
def ddaLoop {α : Type} [LinearOrderedField α] (cfg : DDACfg α) :
    ℕ → DDAState α → Option (DDAState α)
  | 0, _ => none
  | n + 1, st =>
    let st1 := ddaStep cfg st
    if st1.hit = 0 then ddaLoop cfg n st1 else some st1

/-- Number of loop iterations after which the traversal must have left the
map: the distance (in cells) from the current cell to the boundary in the
fixed step direction, summed over both axes. -/
def ddaMeasure {α : Type} (cfg : DDACfg α) (st : DDAState α) : ℕ :=
  (if 0 ≤ st.stepX then cfg.mapWidth - st.mapX else st.mapX + 1).toNat +
    (if 0 ≤ st.stepY then cfg.mapHeight - st.mapY else st.mapY + 1).toNat

/-- A sufficient amount of fuel for the DDA loop started at column `x`. -/
def ddaFuel {α : Type} [LinearOrderedField α] [FloorRing α]
    (cfg : DDACfg α) (x : ℕ) : ℕ :=
  ddaMeasure cfg (ddaInit cfg x) + 1

/-- The side-0 texture-id remap of camera.go:332-344: two sequential
if/else-if blocks (`3↔4` first, then `1→4`/`2→3`), applied only when the hit
was on side 0. -/
def texRemapSide0 (t : ℤ) : ℤ :=
  let t1 := if t = 3 then 4 else if t = 4 then 3 else t
  if t1 = 1 then 4 else if t1 = 2 then 3 else t1

/-- Outcome of `castLevel` for one column, up to the texture selection
(camera.go:296-350): the DDA result (`hit`, `mapX`, `mapY`, `side`), the raw
texture number `grid[mapX][mapY] - 1` (or `-1` out of bounds), the remapped
`texNum`, and the texture stored into `CurrTex[x]` (`some id` for
`c.tex.Textures[id]`, `none` for Go's `nil`). -/
structure CastOut where
  hit : ℤ
  mapX : ℤ
  mapY : ℤ
  side : ℤ
  rawTexNum : ℤ
  texNum : ℤ
  currTex : Option ℕ
deriving DecidableEq

/-- Default value used only to state closed witness theorems. -/
def castOutDflt : CastOut := ⟨0, 0, 0, 0, 0, 0, none⟩

/-- Texturing part of `castLevel` (camera.go:325-350) applied to the DDA
result of column `x`: `texNum := grid[mapX][mapY] - 1` when the final cell is
in bounds, `-1` otherwise; the side-0 remap; and
`CurrTex[x] := Textures[texNum]` if `texNum >= 0`, else `nil`. -/
def castLevelOut {α : Type} [LinearOrderedField α] [FloorRing α]
    (cfg : DDACfg α) (x : ℕ) (fuel : ℕ) : Option CastOut :=
  (ddaLoop cfg fuel (ddaInit cfg x)).map (fun st =>
    let raw : ℤ :=
      if inBounds cfg st.mapX st.mapY then gridAt cfg.grid st.mapX st.mapY - 1
      else -1
    let tn : ℤ := if st.side = 0 then texRemapSide0 raw else raw
    ⟨st.hit, st.mapX, st.mapY, st.side, raw, tn,
      if 0 ≤ tn then some tn.toNat else none⟩)

/-- The movement validator `getValidCameraMove` (camera.go:709-748): early
return when the candidate equals the current position; per-axis clamping of
out-of-map candidates to `edgeDistance` inside the boundary (recomputing the
integer index); then the level-0 tile test `firstLevel[ix][iy] <= 0`.
The unused `checkAlternate` parameter of the Go function is omitted. -/
def getValidCameraMove {α : Type} [LinearOrderedField α] [FloorRing α]
    (mapW mapH : ℤ) (grid : List (List ℤ)) (posX posY moveX moveY : α) :
    α × α :=
  if posX = moveX ∧ posY = moveY then (posX, posY)
  else
    let nxix : α × ℤ :=
      if goInt moveX < 0 ∨ moveX < 0 then ((edgeDist : α), 0)
      else if mapW ≤ goInt moveX then
        ((mapW : α) - edgeDist, goInt ((mapW : α) - edgeDist))
      else (moveX, goInt moveX)
    let nyiy : α × ℤ :=
      if goInt moveY < 0 ∨ moveY < 0 then ((edgeDist : α), 0)
      else if mapH ≤ goInt moveY then
        ((mapH : α) - edgeDist, goInt ((mapH : α) - edgeDist))
      else (moveY, goInt moveY)
    if gridAt grid nxix.2 nyiy.2 ≤ 0 then (nxix.1, nyiy.1) else (posX, posY)

/-- Method `MoveCamera` (camera.go:784-788): the candidate is
`pos + dir * mSpeed`, validated by `getValidCameraMove`. -/
def moveCamera {α : Type} [LinearOrderedField α] [FloorRing α]
    (mapW mapH : ℤ) (grid : List (List ℤ)) (posX posY dirX dirY mSpeed : α) :
    α × α :=
  getValidCameraMove mapW mapH grid posX posY
    (posX + dirX * mSpeed) (posY + dirY * mSpeed)

/-- Method `StrafeCamera` (camera.go:824-828): the candidate is
`pos + plane * sSpeed`, validated by `getValidCameraMove`. -/
def strafeCamera {α : Type} [LinearOrderedField α] [FloorRing α]
    (mapW mapH : ℤ) (grid : List (List ℤ)) (posX posY planeX planeY sSpeed : α) :
    α × α :=
  getValidCameraMove mapW mapH grid posX posY
    (posX + planeX * sSpeed) (posY + planeY * sSpeed)

/-- Per-axis clamp as described by the amended claim C2: a candidate
coordinate is altered only when it lies outside the map — a coordinate that is
negative (or has negative integer part) becomes `edgeDistance`, one whose
integer part reaches the map size becomes `size - edgeDistance`, and an
in-map coordinate is kept unchanged. -/
def clampCoordAmended {α : Type} [LinearOrderedField α] [FloorRing α]
    (size : ℤ) (a : α) : α :=
  if goInt a < 0 ∨ a < 0 then (edgeDist : α)
  else if size ≤ goInt a then (size : α) - edgeDist
  else a

/-- The movement semantics stated by the amended claim C2: if the candidate
equals the current position it is returned unchanged (without consulting the
map); otherwise each coordinate is clamped by `clampCoordAmended` and the move
is accepted exactly when the level-0 tile under the clamped target is `≤ 0`,
the position being unchanged otherwise. -/
def amendedMove {α : Type} [LinearOrderedField α] [FloorRing α]
    (mapW mapH : ℤ) (grid : List (List ℤ)) (posX posY moveX moveY : α) :
    α × α :=
  if posX = moveX ∧ posY = moveY then (posX, posY)
  else
    let cx := clampCoordAmended mapW moveX
    let cy := clampCoordAmended mapH moveY
    if gridAt grid (goInt cx) (goInt cy) ≤ 0 then (cx, cy) else (posX, posY)

/-- Inputs of `castSprite` (camera.go:488-614): the camera fields it reads and
the sprite interface values (`Pos`, `PosZ`, `Scale`, `VerticalOffset`,
`Texture().Size()`, `TextureRect().Min`). -/
structure SpriteIn (α : Type) where
  w : ℤ
  h : ℤ
  pitch : ℤ
  posX : α
  posY : α
  posZ : α
  dirX : α
  dirY : α
  planeX : α
  planeY : α
  texSize : ℤ
  zBuffer : List α
  sprX : α
  sprY : α
  sprPosZ : α
  scale : α
  vOffset : α
  texW : ℤ
  texH : ℤ
  rectMinX : ℤ
  rectMinY : ℤ
deriving DecidableEq

/-- Sprite camera-space x (camera.go:510):
`transformX = invDet * (dirY*spriteX - dirX*spriteY)`. -/
def spriteTransformX {α : Type} [LinearOrderedField α] (s : SpriteIn α) : α :=
  (1 / (s.planeX * s.dirY - s.dirX * s.planeY)) *
    (s.dirY * (s.sprX - s.posX) - s.dirX * (s.sprY - s.posY))

/-- Sprite depth (camera.go:511):
`transformY = invDet * (-planeY*spriteX + planeX*spriteY)`. -/
def spriteTransformY {α : Type} [LinearOrderedField α] (s : SpriteIn α) : α :=
  (1 / (s.planeX * s.dirY - s.dirX * s.planeY)) *
    (-s.planeY * (s.sprX - s.posX) + s.planeX * (s.sprY - s.posY))

/-- Computation `spriteScreenX = int(float64(c.w)/2 * (1+transformX/transformY))`
(camera.go:513). -/
def spriteScreenX {α : Type} [LinearOrderedField α] [FloorRing α]
    (s : SpriteIn α) : ℤ :=
  goInt ((s.w : α) / 2 * (1 + spriteTransformX s / spriteTransformY s))

/-- Computation `vMoveScreen = int(vMove/transformY) + pitch + int(posZ/transformY)`
with `vMove = -(sprite.PosZ()-0.5)*texSize*2 + verticalOffset`
(camera.go:519-521). -/
def spriteVMoveScreen {α : Type} [LinearOrderedField α] [FloorRing α]
    (s : SpriteIn α) : ℤ :=
  goInt ((-(s.sprPosZ - 1 / 2) * (s.texSize : α) * 2 + s.vOffset) /
      spriteTransformY s) +
    s.pitch + goInt (s.posZ / spriteTransformY s)

/-- Computation `spriteHeight = int(Abs(float64(c.h)/transformY) / vDiv)` with
`vDiv = 1/scale` (camera.go:517,524). -/
def spriteHeightI {α : Type} [LinearOrderedField α] [FloorRing α]
    (s : SpriteIn α) : ℤ :=
  goInt (|(s.h : α) / spriteTransformY s| / (1 / s.scale))

/-- Computation `spriteWidth = int(Abs(float64(c.h)/transformY) / uDiv)` with
`uDiv = 1/scale` (camera.go:516,536). -/
def spriteWidthI {α : Type} [LinearOrderedField α] [FloorRing α]
    (s : SpriteIn α) : ℤ :=
  goInt (|(s.h : α) / spriteTransformY s| / (1 / s.scale))

/-- Computation `drawStartY = -spriteHeight/2 + c.h/2 + vMoveScreen`, clamped below at 0
(camera.go:526-529).  Go integer division truncates toward zero. -/
def spriteDrawStartY {α : Type} [LinearOrderedField α] [FloorRing α]
    (s : SpriteIn α) : ℤ :=
  let d := Int.tdiv (-spriteHeightI s) 2 + Int.tdiv s.h 2 + spriteVMoveScreen s
  if d < 0 then 0 else d

/-- Computation `drawEndY = spriteHeight/2 + c.h/2 + vMoveScreen`, clamped above at
`c.h - 1` (camera.go:530-533). -/
def spriteDrawEndY {α : Type} [LinearOrderedField α] [FloorRing α]
    (s : SpriteIn α) : ℤ :=
  let d := Int.tdiv (spriteHeightI s) 2 + Int.tdiv s.h 2 + spriteVMoveScreen s
  if s.h ≤ d then s.h - 1 else d

/-- Computation `drawStartX = -spriteWidth/2 + spriteScreenX`, clamped below at 0
(camera.go:537,540-542). -/
def spriteDrawStartX {α : Type} [LinearOrderedField α] [FloorRing α]
    (s : SpriteIn α) : ℤ :=
  let d := Int.tdiv (-spriteWidthI s) 2 + spriteScreenX s
  if d < 0 then 0 else d

/-- Computation `drawEndX = spriteWidth/2 + spriteScreenX`, clamped above at `c.w - 1`
(camera.go:538,543-545). -/
def spriteDrawEndX {α : Type} [LinearOrderedField α] [FloorRing α]
    (s : SpriteIn α) : ℤ :=
  let d := Int.tdiv (spriteWidthI s) 2 + spriteScreenX s
  if s.w ≤ d then s.w - 1 else d

/-- The screen columns visited by `for stripe := drawStartX; stripe < drawEndX;
stripe++` (camera.go:557). -/
def candidateStripes {α : Type} [LinearOrderedField α] [FloorRing α]
    (s : SpriteIn α) : List ℤ :=
  (List.range (spriteDrawEndX s - spriteDrawStartX s).toNat).map
    (fun i => spriteDrawStartX s + (i : ℤ))

/-- Lookup `c.zBuffer[stripe]`; in the code the z-buffer is only read after the
bounds test `0 < stripe < c.w`, and `NewCamera` sizes it to the viewport
width. -/
def zBufferAt {α : Type} [Zero α] (s : SpriteIn α) (stripe : ℤ) : α :=
  s.zBuffer.getD stripe.toNat 0

/-- The per-column visibility test of camera.go:563:
`transformY > 0 && stripe > 0 && stripe < c.w && transformY < c.zBuffer[stripe]`. -/
def visTest {α : Type} [LinearOrderedField α] (s : SpriteIn α)
    (stripe : ℤ) : Bool :=
  decide (0 < spriteTransformY s ∧ 0 < stripe ∧ stripe < s.w ∧
    spriteTransformY s < zBufferAt s stripe)

/-- One column slice written into a sprite level buffer (camera.go:591-599):
the stripe index and the values stored into `Cts[stripe]` (texture rectangle
rows) and `Sv[stripe]` (screen rows).  The RGBA tint `St[stripe]`
(distance lighting, camera.go:602-608) is written at exactly the same columns
and is abstracted here. -/
structure SpriteSlice where
  stripe : ℤ
  texX : ℤ
  ctsMinY : ℤ
  ctsMaxY : ℤ
  svMinY : ℤ
  svMaxY : ℤ
deriving DecidableEq

/-- The texture column for a stripe (camera.go:573):
`texX = int(256*(stripe-(-spriteWidth/2+spriteScreenX))*spriteTexWidth/spriteWidth)/256`. -/
def spriteTexX {α : Type} [LinearOrderedField α] [FloorRing α]
    (s : SpriteIn α) (stripe : ℤ) : ℤ :=
  Int.tdiv (Int.tdiv (256 * (stripe -
      (Int.tdiv (-spriteWidthI s) 2 + spriteScreenX s)) * s.texW)
    (spriteWidthI s)) 256

/-- Distance-adjusted texture start row (camera.go:580-581). -/
def spriteTexStartY {α : Type} [LinearOrderedField α] [FloorRing α]
    (s : SpriteIn α) : ℤ :=
  Int.tdiv (Int.tdiv (((spriteDrawStartY s - spriteVMoveScreen s) * 256 -
      s.h * 128 + spriteHeightI s * 128) * s.texW) (spriteHeightI s)) 256

/-- Distance-adjusted texture end row (camera.go:583-584). -/
def spriteTexEndY {α : Type} [LinearOrderedField α] [FloorRing α]
    (s : SpriteIn α) : ℤ :=
  Int.tdiv (Int.tdiv (((spriteDrawEndY s - 1 - spriteVMoveScreen s) * 256 -
      s.h * 128 + spriteHeightI s * 128) * s.texW) (spriteHeightI s)) 256

/-- The write performed for one stripe, if any (camera.go:563-599): the stripe
must pass `visTest`; then `texX` must be inside the slice array (whose
capacity is the texture width: the `TextureHandler` supplies one 1-pixel
column slice per texture column), and the computed texture row range must be
non-degenerate and in range, otherwise the column is skipped by `continue`. -/
def spriteWriteAt {α : Type} [LinearOrderedField α] [FloorRing α]
    (s : SpriteIn α) (stripe : ℤ) : Option SpriteSlice :=
  if visTest s stripe then
    if spriteTexX s stripe < 0 ∨ s.texW ≤ spriteTexX s stripe then none
    else if spriteTexStartY s < 0 ∨ spriteTexEndY s ≤ spriteTexStartY s ∨
        s.texW ≤ spriteTexEndY s then none
    else some ⟨stripe, spriteTexX s stripe, s.rectMinY + spriteTexStartY s + 1,
      s.rectMinY + spriteTexEndY s, spriteDrawStartY s + 1, spriteDrawEndY s⟩
  else none

/-- Function `castSprite` for one sprite (camera.go:488-615), as the contents of its
level-buffer slot after the call: `none` models the cleared slot
(`clearSpriteLevel`, reached when no stripe passes the visibility test, so
`renderSprite` stays false), and `some ws` models the freshly allocated
buffer (`makeSpriteLevel`) holding exactly the written column slices. -/
def castSprite {α : Type} [LinearOrderedField α] [FloorRing α]
    (s : SpriteIn α) : Option (List SpriteSlice) :=
  if (candidateStripes s).any (visTest s) then
    some ((candidateStripes s).filterMap (spriteWriteAt s))
  else none

/-- No slice of the list sits in screen column 0 (used to state claim C9). -/
def noColumnZero (ws : List SpriteSlice) : Prop :=
  ∀ e ∈ ws, 0 < e.stripe


/-!
`combSort` (camera.go:682-706).  The two parallel arrays `order` (sprite
indices) and `dist` (squared distances) are always swapped together, so they
are modelled as one list of `(dist, order)` pairs; `raycast`
(camera.go:186-194) calls `combSort(order, dist, amount)` with `amount` equal
to the common length of both arrays.  The inner `for i` loop is translated
with a fuel argument (`amount` iterations always suffice since `i` increases
by one each iteration); the outer `for gap > 1 || swapped` loop terminates
because the gap shrinks while it exceeds 1 and a gap-1 pass that swaps
strictly decreases the number of inversions — this is the well-founded
measure, and the lemmas it needs precede the definition.
-/

/-- Number of inversions for the descending order: pairs appearing in
increasing `dist` order. -/
def invCount {α β : Type} [LinearOrder α] : List (α × β) → ℕ
  | [] => 0
  | a :: t => t.countP (fun x => decide (a.1 < x.1)) + invCount t

/-- The inner loop of `combSort` (camera.go:696-704) from index `i` on, with
fuel: compare `dist[i]` with `dist[i+gap]` and swap both arrays when
`dist[i] < dist[j]`, recording in `sw` whether any swap happened. -/
def combPassFrom {α β : Type} [LinearOrder α] (gap : ℕ) :
    ℕ → List (α × β) → ℕ → Bool → List (α × β) × Bool
  | 0, l, _, sw => (l, sw)
  | k + 1, l, i, sw =>
    if h : i + gap < l.length then
      if (l.get ⟨i, by omega⟩).1 < (l.get ⟨i + gap, h⟩).1 then
        combPassFrom gap k
          ((l.set i (l.get ⟨i + gap, h⟩)).set (i + gap) (l.get ⟨i, by omega⟩))
          (i + 1) true
      else combPassFrom gap k l (i + 1) sw
    else (l, sw)

/-- One full inner pass (`for i := 0; i < amount-gap; i++`). -/
def combPass {α β : Type} [LinearOrder α] (gap : ℕ) (l : List (α × β)) :
    List (α × β) × Bool :=
  combPassFrom gap l.length l 0 false

/-- The gap update at the top of the outer loop (camera.go:686-693):
`gap = gap*10/13`, the 9/10 → 11 rule correction, then the clamp to at
least 1. -/
def combNext (gap : ℕ) : ℕ :=
  let g := gap * 10 / 13
  let g2 := if g = 9 ∨ g = 10 then 11 else g
  if g2 < 1 then 1 else g2

theorem combPassFrom_length {α β : Type} [LinearOrder α] (gap : ℕ) :
    ∀ (k : ℕ) (l : List (α × β)) (i : ℕ) (sw : Bool),
      (combPassFrom gap k l i sw).1.length = l.length := by
  intro k
  induction k with
  | zero => intro l i sw; rfl
  | succ k ih =>
    intro l i sw
    rw [combPassFrom]
    split
    · split
      · rw [ih]; simp
      · exact ih _ _ _
    · rfl

theorem get_cons_set_perm {γ : Type} :
    ∀ (t : List γ) (k : ℕ) (h : k < t.length) (a : γ),
      List.Perm (t.get ⟨k, h⟩ :: t.set k a) (a :: t) := by
  intro t
  induction t with
  | nil => intro k h a; simp at h
  | cons y s ih =>
    intro k h a
    cases k with
    | zero => exact List.Perm.swap a y s
    | succ k =>
      have hk : k < s.length := by simpa using Nat.lt_of_succ_lt_succ h
      exact (List.Perm.swap y (s.get ⟨k, hk⟩) (s.set k a)).trans
        (((ih k hk a).cons y).trans (List.Perm.swap a y s))

theorem set_set_swap_perm {γ : Type} :
    ∀ (l : List γ) (i j : ℕ) (_hij : i < j) (hj : j < l.length)
      (hi : i < l.length),
      List.Perm ((l.set i (l.get ⟨j, hj⟩)).set j (l.get ⟨i, hi⟩)) l := by
  intro l
  induction l with
  | nil => intro i j hij hj hi; simp at hj
  | cons x t ih =>
    intro i j _hij hj hi
    cases i with
    | zero =>
      cases j with
      | zero => omega
      | succ k =>
        have hk : k < t.length := by simpa using Nat.lt_of_succ_lt_succ hj
        exact get_cons_set_perm t k hk x
    | succ i =>
      cases j with
      | zero => omega
      | succ k =>
        have hk : k < t.length := by simpa using Nat.lt_of_succ_lt_succ hj
        have hi2 : i < t.length := by simpa using Nat.lt_of_succ_lt_succ hi
        exact (ih i k (by omega) hk hi2).cons x

theorem combPassFrom_perm {α β : Type} [LinearOrder α] (gap : ℕ)
    (hgap : 1 ≤ gap) :
    ∀ (k : ℕ) (l : List (α × β)) (i : ℕ) (sw : Bool),
      List.Perm (combPassFrom gap k l i sw).1 l := by
  intro k
  induction k with
  | zero => intro l i sw; exact List.Perm.refl l
  | succ k ih =>
    intro l i sw
    rw [combPassFrom]
    split
    · rename_i hlen
      split
      · exact (ih _ _ _).trans
          (set_set_swap_perm l i (i + gap) (by omega) hlen (by omega))
      · exact ih _ _ _
    · exact List.Perm.refl l

theorem invCount_append_swap_adjacent {α β : Type} [LinearOrder α]
    (a b : α × β) (hab : a.1 < b.1) :
    ∀ (pre t : List (α × β)),
      invCount (pre ++ b :: a :: t) + 1 = invCount (pre ++ a :: b :: t) := by
  intro pre
  induction pre with
  | nil =>
    intro t
    show invCount (b :: a :: t) + 1 = invCount (a :: b :: t)
    simp only [invCount, List.countP_cons]
    have h1 : decide (b.1 < a.1) = false := by
      simp only [decide_eq_false_iff_not]
      exact not_lt_of_gt hab
    have h2 : decide (a.1 < b.1) = true := by
      simpa using hab
    simp only [h1, h2]
    simp
    omega
  | cons x pre ih =>
    intro t
    show invCount (x :: (pre ++ b :: a :: t)) + 1 =
      invCount (x :: (pre ++ a :: b :: t))
    simp only [invCount]
    have hc : List.countP (fun z => decide (x.1 < z.1)) (pre ++ b :: a :: t) =
        List.countP (fun z => decide (x.1 < z.1)) (pre ++ a :: b :: t) := by
      simp only [List.countP_append, List.countP_cons]
      omega
    rw [hc]
    have := ih t
    omega

theorem swap_adjacent_decomp {γ : Type} :
    ∀ (l : List γ) (i : ℕ) (h : i + 1 < l.length) (hi : i < l.length),
      (l.set i (l.get ⟨i + 1, h⟩)).set (i + 1) (l.get ⟨i, hi⟩) =
          l.take i ++ l.get ⟨i + 1, h⟩ :: l.get ⟨i, hi⟩ :: l.drop (i + 2) ∧
        l = l.take i ++ l.get ⟨i, hi⟩ :: l.get ⟨i + 1, h⟩ :: l.drop (i + 2) := by
  intro l
  induction l with
  | nil => intro i h hi; simp at h
  | cons x t ih =>
    intro i h hi
    cases i with
    | zero =>
      cases t with
      | nil => simp at h
      | cons y s => simp
    | succ i =>
      have ht : i + 1 < t.length := by
        simp only [List.length_cons] at h
        omega
      have hti : i < t.length := by omega
      have := ih i ht hti
      refine ⟨?_, ?_⟩
      · simpa using this.1
      · simpa using this.2

theorem invCount_swap_adjacent {α β : Type} [LinearOrder α]
    (l : List (α × β)) (i : ℕ) (h : i + 1 < l.length) (hi : i < l.length)
    (hlt : (l.get ⟨i, hi⟩).1 < (l.get ⟨i + 1, h⟩).1) :
    invCount ((l.set i (l.get ⟨i + 1, h⟩)).set (i + 1) (l.get ⟨i, hi⟩)) + 1 =
      invCount l := by
  obtain ⟨h1, h2⟩ := swap_adjacent_decomp l i h hi
  rw [h1]
  conv_rhs => rw [h2]
  exact invCount_append_swap_adjacent _ _ hlt _ _

theorem combPassFrom_inv_le {α β : Type} [LinearOrder α] :
    ∀ (k : ℕ) (l : List (α × β)) (i : ℕ) (sw : Bool),
      invCount (combPassFrom 1 k l i sw).1 ≤ invCount l := by
  intro k
  induction k with
  | zero => intro l i sw; exact le_refl _
  | succ k ih =>
    intro l i sw
    rw [combPassFrom]
    split
    · rename_i hlen
      split
      · rename_i hlt
        have hswap := invCount_swap_adjacent l i hlen (by omega) hlt
        exact le_trans (ih _ _ _) (by omega)
      · exact ih _ _ _
    · exact le_refl _

theorem combPassFrom_inv_lt {α β : Type} [LinearOrder α] :
    ∀ (k : ℕ) (l : List (α × β)) (i : ℕ),
      (combPassFrom 1 k l i false).2 = true →
        invCount (combPassFrom 1 k l i false).1 < invCount l := by
  intro k
  induction k with
  | zero => intro l i hsw; simp [combPassFrom] at hsw
  | succ k ih =>
    intro l i hsw
    rw [combPassFrom] at hsw ⊢
    split at hsw
    · rename_i hlen
      split at hsw
      · rename_i hlt
        rw [dif_pos hlen, if_pos hlt]
        have hswap := invCount_swap_adjacent l i hlen (by omega) hlt
        exact lt_of_le_of_lt (combPassFrom_inv_le _ _ _ _) (by omega)
      · rename_i hlt
        rw [dif_pos hlen, if_neg hlt]
        exact ih _ _ hsw
    · simp at hsw

theorem combPassFrom_sw_true {α β : Type} [LinearOrder α] (gap : ℕ) :
    ∀ (k : ℕ) (l : List (α × β)) (i : ℕ),
      (combPassFrom gap k l i true).2 = true := by
  intro k
  induction k with
  | zero => intro l i; rfl
  | succ k ih =>
    intro l i
    rw [combPassFrom]
    split
    · split
      · exact ih _ _
      · exact ih _ _
    · rfl

theorem combPassFrom_no_swap {α β : Type} [LinearOrder α] (gap : ℕ) :
    ∀ (k : ℕ) (l : List (α × β)) (i : ℕ),
      (combPassFrom gap k l i false).2 = false →
        (combPassFrom gap k l i false).1 = l := by
  intro k
  induction k with
  | zero => intro l i _; rfl
  | succ k ih =>
    intro l i hsw
    rw [combPassFrom] at hsw ⊢
    split at hsw
    · rename_i hlen
      split at hsw
      · rename_i hlt
        rw [combPassFrom_sw_true] at hsw
        exact absurd hsw (by simp)
      · rename_i hlt
        rw [dif_pos hlen, if_neg hlt]
        exact ih _ _ hsw
    · rename_i hlen
      rw [dif_neg hlen]

theorem combPassFrom_sorted {α β : Type} [LinearOrder α] :
    ∀ (k : ℕ) (l : List (α × β)) (i : ℕ), l.length ≤ i + k →
      combPassFrom 1 k l i false = (l, false) →
      ∀ (j : ℕ) (hj1 : j + 1 < l.length) (hj : j < l.length), i ≤ j →
        ¬ (l.get ⟨j, hj⟩).1 < (l.get ⟨j + 1, hj1⟩).1 := by
  intro k
  induction k with
  | zero =>
    intro l i hik _ j hj1 hj hij
    omega
  | succ k ih =>
    intro l i hik hpass j hj1 hj hij
    rw [combPassFrom] at hpass
    split at hpass
    · rename_i hlen
      split at hpass
      · rename_i hlt
        have : (combPassFrom 1 k
            ((l.set i (l.get ⟨i + 1, hlen⟩)).set (i + 1) (l.get ⟨i, by omega⟩))
            (i + 1) true).2 = true := combPassFrom_sw_true _ _ _ _
        rw [hpass] at this
        exact absurd this (by simp)
      · rename_i hlt
        rcases Nat.eq_or_lt_of_le hij with heq | hgt
        · subst heq
          exact hlt
        · exact ih l (i + 1) (by omega) hpass j hj1 hj (by omega)
    · rename_i hlen
      omega

theorem combNext_pos (g : ℕ) : 1 ≤ combNext g := by
  simp only [combNext]
  split
  · norm_num
  · split
    · norm_num
    · omega

theorem combNext_lt (g : ℕ) (hg : 2 ≤ g) : combNext g < g := by
  simp only [combNext]
  have h13 : (0 : ℕ) < 13 := by norm_num
  have hlt : g * 10 / 13 < g := (Nat.div_lt_iff_lt_mul h13).2 (by omega)
  split
  · rename_i h910
    have h9 : 9 ≤ g * 10 / 13 := by omega
    have h117 : 117 ≤ g * 10 := (Nat.le_div_iff_mul_le h13).1 h9
    split <;> omega
  · split <;> omega

theorem invCount_le_sq {α β : Type} [LinearOrder α] :
    ∀ (l : List (α × β)), invCount l ≤ l.length * l.length := by
  intro l
  induction l with
  | nil => simp [invCount]
  | cons a t ih =>
    simp only [invCount, List.length_cons]
    have h1 : t.countP (fun x => decide (a.1 < x.1)) ≤ t.length :=
      List.countP_le_length _
    nlinarith

/-- The outer loop of `combSort` (camera.go:685-705), on the paired arrays:
while `gap > 1 || swapped`, shrink the gap and run one pass from index 0 with
`swapped` reset to false. -/
def combSortLoop {α β : Type} [LinearOrder α] (l : List (α × β)) (gap : ℕ)
    (swapped : Bool) : List (α × β) :=
  if h : 1 < gap ∨ swapped = true then
    combSortLoop (combPass (combNext gap) l).1 (combNext gap)
      (combPass (combNext gap) l).2
  else l
  termination_by
    Max.max gap 1 * (l.length * l.length + 2) + invCount l +
      (if swapped then 1 else 0)
  decreasing_by
    have hlen : (combPass (combNext gap) l).1.length = l.length :=
      combPassFrom_length _ _ _ _ _
    rw [hlen]
    have hinv2 : invCount (combPass (combNext gap) l).1 ≤ l.length * l.length := by
      have h3 := invCount_le_sq (combPass (combNext gap) l).1
      rwa [hlen] at h3
    rcases Nat.lt_or_ge 1 gap with hgap | hgap
    · have h1 : combNext gap < gap := combNext_lt gap (by omega)
      have h2 : 1 ≤ combNext gap := combNext_pos gap
      have hmax1 : Max.max (combNext gap) 1 = combNext gap := by omega
      have hmax2 : Max.max gap 1 = gap := by omega
      rw [hmax1, hmax2]
      have hmul : combNext gap * (l.length * l.length + 2) +
          (l.length * l.length + 2) ≤ gap * (l.length * l.length + 2) := by
        have hc : combNext gap + 1 ≤ gap := by omega
        calc combNext gap * (l.length * l.length + 2) +
              (l.length * l.length + 2)
            = (combNext gap + 1) * (l.length * l.length + 2) := by ring
          _ ≤ gap * (l.length * l.length + 2) :=
              Nat.mul_le_mul_right _ hc
      have hsw1 : (if (combPass (combNext gap) l).2 = true then 1 else 0) ≤ 1 := by
        split <;> omega
      generalize hL : l.length * l.length = L at *
      generalize hA : combNext gap * (L + 2) = A at *
      generalize hB : gap * (L + 2) = B at *
      have hsw0 : (0 : ℕ) ≤ (if swapped = true then 1 else 0) := Nat.zero_le _
      split <;> omega
    · have hsw : swapped = true := by
        rcases h with h | h
        · omega
        · exact h
      have hg01 : gap = 0 ∨ gap = 1 := by omega
      have hnext : combNext gap = 1 := by
        rcases hg01 with h0 | h0 <;> subst h0 <;> decide
      rw [hnext, hsw]
      have honeone : Max.max 1 1 = 1 := rfl
      have hmax2 : Max.max gap 1 = 1 := by omega
      rw [honeone, hmax2]
      generalize hL : l.length * l.length = L at *
      rcases hp2 : (combPass 1 l).2 with _ | _
      · have hfix : (combPass 1 l).1 = l := combPassFrom_no_swap 1 _ _ _ hp2
        rw [hfix]
        simp
      · have hdec : invCount (combPass 1 l).1 < invCount l :=
          combPassFrom_inv_lt _ _ _ hp2
        simp only [if_pos]
        omega

/-- Function `combSort` (camera.go:682-706): `gap` starts at `amount` (the length of
the parallel arrays) and `swapped` at false. -/
def combSort {α β : Type} [LinearOrder α] (l : List (α × β)) : List (α × β) :=
  combSortLoop l l.length false

/-- Adjacent pairs are in non-increasing `dist` order. -/
def pairsOrdered {α β : Type} [LinearOrder α] (l : List (α × β)) : Prop :=
  ∀ (j : ℕ) (hj1 : j + 1 < l.length) (hj : j < l.length),
    ¬ (l.get ⟨j, hj⟩).1 < (l.get ⟨j + 1, hj1⟩).1

theorem combSortLoop_perm {α β : Type} [LinearOrder α] :
    ∀ (l : List (α × β)) (gap : ℕ) (sw : Bool),
      List.Perm (combSortLoop l gap sw) l := by
  intro l gap sw
  induction l, gap, sw using combSortLoop.induct with
  | case1 l gap sw hguard ih =>
    rw [combSortLoop, dif_pos hguard]
    exact ih.trans (combPassFrom_perm _ (combNext_pos gap) _ _ _ _)
  | case2 l gap sw hguard =>
    rw [combSortLoop, dif_neg hguard]

theorem combSortLoop_pairsOrdered {α β : Type} [LinearOrder α] :
    ∀ (l : List (α × β)) (gap : ℕ) (sw : Bool),
      (¬ (1 < gap ∨ sw = true) → pairsOrdered l) →
        pairsOrdered (combSortLoop l gap sw) := by
  intro l gap sw
  induction l, gap, sw using combSortLoop.induct with
  | case1 l gap sw hguard ih =>
    intro hpre
    rw [combSortLoop, dif_pos hguard]
    apply ih
    intro hng
    push_neg at hng
    obtain ⟨hg1, hsw2⟩ := hng
    have hone : combNext gap = 1 := by
      have := combNext_pos gap
      omega
    rw [hone] at hsw2 ⊢
    have hsw3 : (combPass 1 l).2 = false := by
      simpa using hsw2
    have hfix : (combPass 1 l).1 = l :=
      combPassFrom_no_swap 1 _ _ _ hsw3
    rw [hfix]
    have hpass : combPassFrom 1 l.length l 0 false = (l, false) :=
      Prod.ext_iff.2 ⟨hfix, hsw3⟩
    intro j hj1 hj
    exact combPassFrom_sorted l.length l 0 (by omega) hpass j hj1 hj (by omega)
  | case2 l gap sw hguard =>
    intro hpre
    rw [combSortLoop, dif_neg hguard]
    exact hpre hguard

/-- C5: after `combSort`, the paired (distance, order) list is a permutation
of the input — so `order` stays a bijection over the input indices and every
order entry keeps its original distance — and the distances are
non-increasing (sorted descending). -/
theorem combSort_perm_sorted {α β : Type} [LinearOrder α] (l : List (α × β)) :
    List.Perm (combSort l) l ∧
      List.Sorted (fun p q : α × β => q.1 ≤ p.1) (combSort l) := by
  constructor
  · exact combSortLoop_perm l l.length false
  · have hord : pairsOrdered (combSort l) := by
      apply combSortLoop_pairsOrdered l l.length false
      intro hng j hj1 hj
      push_neg at hng
      omega
    haveI : IsTrans (α × β) (fun p q : α × β => q.1 ≤ p.1) :=
      ⟨fun a b c h1 h2 => le_trans h2 h1⟩
    show List.Pairwise (fun p q : α × β => q.1 ≤ p.1) (combSort l)
    rw [← List.chain'_iff_pairwise, List.chain'_iff_get]
    intro i hi
    have h1 : i + 1 < (combSort l).length := by omega
    exact not_lt.mp (hord i h1 (by omega))

theorem ddaCheck_fields {α : Type} (cfg : DDACfg α) (st : DDAState α) :
    (ddaCheck cfg st).mapX = st.mapX ∧ (ddaCheck cfg st).mapY = st.mapY ∧
      (ddaCheck cfg st).side = st.side ∧ (ddaCheck cfg st).stepX = st.stepX ∧
      (ddaCheck cfg st).stepY = st.stepY := by
  simp only [ddaCheck]
  split
  · split
    · exact ⟨rfl, rfl, rfl, rfl, rfl⟩
    · exact ⟨rfl, rfl, rfl, rfl, rfl⟩
  · exact ⟨rfl, rfl, rfl, rfl, rfl⟩

theorem ddaCheck_hit_spec {α : Type} (cfg : DDACfg α) (st : DDAState α) :
    (inBounds cfg st.mapX st.mapY = true ∧
        0 < gridAt cfg.grid st.mapX st.mapY ∧ (ddaCheck cfg st).hit = 1) ∨
      (inBounds cfg st.mapX st.mapY = true ∧
        ¬ 0 < gridAt cfg.grid st.mapX st.mapY ∧
        (ddaCheck cfg st).hit = st.hit) ∨
      (inBounds cfg st.mapX st.mapY = false ∧ (ddaCheck cfg st).hit = 2) := by
  simp only [ddaCheck]
  split
  · rename_i hin
    split
    · rename_i hgrid
      exact Or.inl ⟨hin, hgrid, rfl⟩
    · rename_i hgrid
      exact Or.inr (Or.inl ⟨hin, hgrid, rfl⟩)
  · rename_i hin
    exact Or.inr (Or.inr ⟨Bool.eq_false_iff.mpr hin, rfl⟩)

theorem ddaAdvance_move {α : Type} [LinearOrderedField α] (st : DDAState α) :
    (st.sideDistX < st.sideDistY ∧ (ddaAdvance st).mapX = st.mapX + st.stepX ∧
        (ddaAdvance st).mapY = st.mapY ∧ (ddaAdvance st).side = 0 ∧
        (ddaAdvance st).stepX = st.stepX ∧ (ddaAdvance st).stepY = st.stepY ∧
        (ddaAdvance st).hit = st.hit) ∨
      (¬ st.sideDistX < st.sideDistY ∧ (ddaAdvance st).mapX = st.mapX ∧
        (ddaAdvance st).mapY = st.mapY + st.stepY ∧ (ddaAdvance st).side = 1 ∧
        (ddaAdvance st).stepX = st.stepX ∧ (ddaAdvance st).stepY = st.stepY ∧
        (ddaAdvance st).hit = st.hit) := by
  simp only [ddaAdvance]
  by_cases hc : st.sideDistX < st.sideDistY
  · rw [if_pos hc]
    exact Or.inl ⟨hc, rfl, rfl, rfl, rfl, rfl, rfl⟩
  · rw [if_neg hc]
    exact Or.inr ⟨hc, rfl, rfl, rfl, rfl, rfl, rfl⟩

theorem ddaStep_move {α : Type} [LinearOrderedField α] (cfg : DDACfg α)
    (st : DDAState α) :
    (st.sideDistX < st.sideDistY ∧ (ddaStep cfg st).mapX = st.mapX + st.stepX ∧
        (ddaStep cfg st).mapY = st.mapY ∧ (ddaStep cfg st).side = 0) ∨
      (¬ st.sideDistX < st.sideDistY ∧ (ddaStep cfg st).mapX = st.mapX ∧
        (ddaStep cfg st).mapY = st.mapY + st.stepY ∧
        (ddaStep cfg st).side = 1) := by
  have hf := ddaCheck_fields cfg (ddaAdvance st)
  have hm := ddaAdvance_move st
  rcases hm with ⟨hc, h1, h2, h3, _⟩ | ⟨hc, h1, h2, h3, _⟩
  · exact Or.inl ⟨hc, by rw [ddaStep, hf.1, h1], by rw [ddaStep, hf.2.1, h2],
      by rw [ddaStep, hf.2.2.1, h3]⟩
  · exact Or.inr ⟨hc, by rw [ddaStep, hf.1, h1], by rw [ddaStep, hf.2.1, h2],
      by rw [ddaStep, hf.2.2.1, h3]⟩

theorem ddaStep_keeps_steps {α : Type} [LinearOrderedField α] (cfg : DDACfg α)
    (st : DDAState α) :
    (ddaStep cfg st).stepX = st.stepX ∧ (ddaStep cfg st).stepY = st.stepY := by
  have hf := ddaCheck_fields cfg (ddaAdvance st)
  have hm := ddaAdvance_move st
  rcases hm with ⟨_, _, _, _, h4, h5, _⟩ | ⟨_, _, _, _, h4, h5, _⟩ <;>
    exact ⟨by rw [ddaStep, hf.2.2.2.1, h4], by rw [ddaStep, hf.2.2.2.2, h5]⟩

theorem ddaStep_hit_spec {α : Type} [LinearOrderedField α] (cfg : DDACfg α)
    (st : DDAState α) :
    (inBounds cfg (ddaStep cfg st).mapX (ddaStep cfg st).mapY = true ∧
        0 < gridAt cfg.grid (ddaStep cfg st).mapX (ddaStep cfg st).mapY ∧
        (ddaStep cfg st).hit = 1) ∨
      (inBounds cfg (ddaStep cfg st).mapX (ddaStep cfg st).mapY = true ∧
        ¬ 0 < gridAt cfg.grid (ddaStep cfg st).mapX (ddaStep cfg st).mapY ∧
        (ddaStep cfg st).hit = st.hit) ∨
      (inBounds cfg (ddaStep cfg st).mapX (ddaStep cfg st).mapY = false ∧
        (ddaStep cfg st).hit = 2) := by
  have hf := ddaCheck_fields cfg (ddaAdvance st)
  have hs := ddaCheck_hit_spec cfg (ddaAdvance st)
  have hadv : (ddaAdvance st).hit = st.hit := by
    rcases ddaAdvance_move st with ⟨_, _, _, _, _, _, h⟩ | ⟨_, _, _, _, _, _, h⟩ <;>
      exact h
  rw [ddaStep] at *
  rw [hf.1, hf.2.1]
  rcases hs with ⟨h1, h2, h3⟩ | ⟨h1, h2, h3⟩ | ⟨h1, h3⟩
  · exact Or.inl ⟨h1, h2, h3⟩
  · exact Or.inr (Or.inl ⟨h1, h2, by rw [h3, hadv]⟩)
  · exact Or.inr (Or.inr ⟨h1, h3⟩)

theorem ddaLoop_hit_spec {α : Type} [LinearOrderedField α] (cfg : DDACfg α) :
    ∀ (n : ℕ) (st st' : DDAState α), st.hit = 0 →
      ddaLoop cfg n st = some st' →
      ((st'.hit = 1 ∧ inBounds cfg st'.mapX st'.mapY = true ∧
          0 < gridAt cfg.grid st'.mapX st'.mapY) ∨
        (st'.hit = 2 ∧ inBounds cfg st'.mapX st'.mapY = false)) := by
  intro n
  induction n with
  | zero => intro st st' _ heq; exact absurd heq (by simp [ddaLoop])
  | succ n ih =>
    intro st st' hhit heq
    rw [ddaLoop] at heq
    by_cases hz : (ddaStep cfg st).hit = 0
    · rw [if_pos hz] at heq
      exact ih _ _ hz heq
    · rw [if_neg hz] at heq
      have hst' : st' = ddaStep cfg st := by
        injection heq.symm
      subst hst'
      rcases ddaStep_hit_spec cfg st with ⟨h1, h2, h3⟩ | ⟨h1, h2, h3⟩ | ⟨h1, h3⟩
      · exact Or.inl ⟨h3, h1, h2⟩
      · rw [hhit] at h3
        exact absurd h3 hz
      · exact Or.inr ⟨h3, h1⟩

theorem ddaLoop_isSome_of_measure {α : Type} [LinearOrderedField α]
    (cfg : DDACfg α) :
    ∀ (n : ℕ) (st : DDAState α), st.hit = 0 →
      (st.stepX = 1 ∨ st.stepX = -1) → (st.stepY = 1 ∨ st.stepY = -1) →
      ddaMeasure cfg st < n → (ddaLoop cfg n st).isSome = true := by
  intro n
  induction n with
  | zero => intro st _ _ _ hm; omega
  | succ n ih =>
    intro st hhit hsx hsy hm
    rw [ddaLoop]
    by_cases hz : (ddaStep cfg st).hit = 0
    · rw [if_pos hz]
      have hin : inBounds cfg (ddaStep cfg st).mapX (ddaStep cfg st).mapY = true := by
        rcases ddaStep_hit_spec cfg st with ⟨h1, _, h3⟩ | ⟨h1, _, _⟩ | ⟨_, h3⟩
        · rw [h3] at hz; omega
        · exact h1
        · rw [h3] at hz; omega
      have hbnd : 0 ≤ (ddaStep cfg st).mapX ∧ 0 ≤ (ddaStep cfg st).mapY ∧
          (ddaStep cfg st).mapX < cfg.mapWidth ∧
          (ddaStep cfg st).mapY < cfg.mapHeight := by
        have := of_decide_eq_true hin
        exact this
      have hkeep := ddaStep_keeps_steps cfg st
      have hmove := ddaStep_move cfg st
      have hmeas : ddaMeasure cfg (ddaStep cfg st) < ddaMeasure cfg st := by
        unfold ddaMeasure
        rw [hkeep.1, hkeep.2]
        obtain ⟨b1, b2, b3, b4⟩ := hbnd
        rcases hmove with ⟨_, h1, h2, _⟩ | ⟨_, h1, h2, _⟩ <;>
          rcases hsx with hx | hx <;> rcases hsy with hy | hy <;>
          · simp only [h1, h2, hx, hy] at b1 b2 b3 b4 ⊢
            split_ifs <;> omega
      apply ih _ hz (hkeep.1 ▸ hsx) (hkeep.2 ▸ hsy)
      omega
    · rw [if_neg hz]
      rfl

theorem goInt_intCast {α : Type} [LinearOrderedField α] [FloorRing α]
    (z : ℤ) : goInt ((z : α)) = z := by
  unfold goInt
  split_ifs with h
  · rw [Int.ceil_intCast]
  · rw [Int.floor_intCast]

theorem goInt_one {α : Type} [LinearOrderedField α] [FloorRing α] :
    goInt ((1 : α)) = 1 := by
  have := goInt_intCast (α := α) 1
  simpa using this

theorem goInt_zero {α : Type} [LinearOrderedField α] [FloorRing α] :
    goInt ((0 : α)) = 0 := by
  have := goInt_intCast (α := α) 0
  simpa using this

theorem ddaInit_hit {α : Type} [LinearOrderedField α] [FloorRing α]
    (cfg : DDACfg α) (x : ℕ) : (ddaInit cfg x).hit = 0 := rfl

theorem ddaInit_stepX {α : Type} [LinearOrderedField α] [FloorRing α]
    (cfg : DDACfg α) (x : ℕ) :
    (ddaInit cfg x).stepX = 1 ∨ (ddaInit cfg x).stepX = -1 := by
  simp only [ddaInit]
  split_ifs <;> simp

theorem ddaInit_stepY {α : Type} [LinearOrderedField α] [FloorRing α]
    (cfg : DDACfg α) (x : ℕ) :
    (ddaInit cfg x).stepY = 1 ∨ (ddaInit cfg x).stepY = -1 := by
  simp only [ddaInit]
  split_ifs <;> simp

theorem ddaLoop_succ {α : Type} [LinearOrderedField α] (cfg : DDACfg α)
    (n : ℕ) (st : DDAState α) :
    ddaLoop cfg (n + 1) st =
      if (ddaStep cfg st).hit = 0 then ddaLoop cfg n (ddaStep cfg st)
      else some (ddaStep cfg st) := rfl

/-- The camera configuration of the end-to-end scenario, with the plane's y
component as a parameter: viewport width 1, position `(1,1)`, direction
`(1,0)` (heading 0, east), plane `(0,-t)`, 3×3 map. -/
def sCfg {α : Type} [LinearOrderedField α] (t : α) (g : List (List ℤ)) :
    DDACfg α :=
  ⟨1, ⟨1, 1⟩, ⟨1, 0⟩, ⟨0, -t⟩, 3, 3, g⟩

/-- The C1 map: 3×3, all zero except `grid[2][2] = 1`. -/
def c1Grid : List (List ℤ) := [[0, 0, 0], [0, 0, 0], [0, 0, 1]]

/-- The C3 counterexample map: like `c1Grid` but with the non-zero, passable
tile `-1` at `grid[2][1]`. -/
def c3Grid : List (List ℤ) := [[0, 0, 0], [0, 0, 0], [0, -1, 1]]

/-- An all-zero 3×3 map (every ray exits the grid). -/
def zeroGrid3 : List (List ℤ) := [[0, 0, 0], [0, 0, 0], [0, 0, 0]]

theorem ddaInit_sCfg {α : Type} [LinearOrderedField α] [FloorRing α]
    (t : α) (ht : 0 < t) (g : List (List ℤ)) :
    ddaInit (sCfg t g) 0 =
      ⟨1, 1, 1, 1, ((1 : α) : WithTop α), ((1 / t : α) : WithTop α),
        ((1 : α) : WithTop α), ((1 / t : α) : WithTop α), -1, 0⟩ := by
  have ht0 : t ≠ 0 := ne_of_gt ht
  have htneg : ¬ t < 0 := not_lt.mpr ht.le
  have hrx : rayDirX (sCfg t g) 0 = 1 := by
    simp [rayDirX, cameraX, sCfg]
  have hry : rayDirY (sCfg t g) 0 = t := by
    simp [rayDirY, cameraX, sCfg]
  have habs : |1 / t| = 1 / t := abs_of_pos (by positivity)
  have hpos : (sCfg t g).pos = (⟨1, 1⟩ : Vec2 α) := rfl
  simp only [ddaInit, hrx, hry, hpos, one_ne_zero, if_false, ht0, htneg,
    goInt_one]
  norm_num [habs, WithTop.map_coe]
  exact ht.le

theorem ddaRun_sCfg_wall {α : Type} [LinearOrderedField α] [FloorRing α]
    (t : α) (h1 : 1 / 2 < t) (h2 : t < 1) (g : List (List ℤ))
    (hg1 : ¬ 0 < gridAt g 2 1) (hg2 : 0 < gridAt g 2 2) :
    ddaLoop (sCfg t g) 8 (ddaInit (sCfg t g) 0) =
      some ⟨2, 2, 1, 1, ((1 : α) : WithTop α), ((1 / t : α) : WithTop α),
        ((2 : α) : WithTop α), ((1 / t + 1 / t : α) : WithTop α), 1, 1⟩ := by
  have ht : 0 < t := by linarith
  have hc1 : ((1 : α) : WithTop α) < ((1 / t : α) : WithTop α) := by
    rw [WithTop.coe_lt_coe, lt_div_iff ht]
    linarith
  have hc2 : ¬ ((2 : α) : WithTop α) < ((1 / t : α) : WithTop α) := by
    rw [WithTop.coe_lt_coe, lt_div_iff ht]
    intro hcon
    linarith
  have hs1 : ddaStep (sCfg t g)
      ⟨1, 1, 1, 1, ((1 : α) : WithTop α), ((1 / t : α) : WithTop α),
        ((1 : α) : WithTop α), ((1 / t : α) : WithTop α), -1, 0⟩ =
      ⟨2, 1, 1, 1, ((1 : α) : WithTop α), ((1 / t : α) : WithTop α),
        ((2 : α) : WithTop α), ((1 / t : α) : WithTop α), 0, 0⟩ := by
    rw [ddaStep]
    have hadv : ddaAdvance
        (⟨1, 1, 1, 1, ((1 : α) : WithTop α), ((1 / t : α) : WithTop α),
          ((1 : α) : WithTop α), ((1 / t : α) : WithTop α), -1, 0⟩ :
            DDAState α) =
        ⟨2, 1, 1, 1, ((1 : α) : WithTop α), ((1 / t : α) : WithTop α),
          ((2 : α) : WithTop α), ((1 / t : α) : WithTop α), 0, 0⟩ := by
      rw [ddaAdvance, if_pos hc1]
      norm_num [← WithTop.coe_add]
    rw [hadv, ddaCheck]
    dsimp only
    rw [show inBounds (sCfg t g) 2 1 = true from rfl]
    rw [if_pos rfl, show (sCfg t g).grid = g from rfl, if_neg hg1]
  have hs2 : ddaStep (sCfg t g)
      ⟨2, 1, 1, 1, ((1 : α) : WithTop α), ((1 / t : α) : WithTop α),
        ((2 : α) : WithTop α), ((1 / t : α) : WithTop α), 0, 0⟩ =
      ⟨2, 2, 1, 1, ((1 : α) : WithTop α), ((1 / t : α) : WithTop α),
        ((2 : α) : WithTop α), ((1 / t + 1 / t : α) : WithTop α), 1, 1⟩ := by
    rw [ddaStep]
    have hadv : ddaAdvance
        (⟨2, 1, 1, 1, ((1 : α) : WithTop α), ((1 / t : α) : WithTop α),
          ((2 : α) : WithTop α), ((1 / t : α) : WithTop α), 0, 0⟩ :
            DDAState α) =
        ⟨2, 2, 1, 1, ((1 : α) : WithTop α), ((1 / t : α) : WithTop α),
          ((2 : α) : WithTop α), ((1 / t + 1 / t : α) : WithTop α), 1, 0⟩ := by
      rw [ddaAdvance, if_neg hc2]
      norm_num [← WithTop.coe_add]
    rw [hadv, ddaCheck]
    dsimp only
    rw [show inBounds (sCfg t g) 2 2 = true from rfl]
    rw [if_pos rfl, show (sCfg t g).grid = g from rfl, if_pos hg2]
  rw [ddaInit_sCfg t ht g]
  rw [show (8 : ℕ) = 7 + 1 from rfl, ddaLoop_succ, hs1]
  rw [if_pos rfl]
  rw [show (7 : ℕ) = 6 + 1 from rfl, ddaLoop_succ, hs2]
  rw [if_neg (by norm_num)]

theorem ddaRun_sCfg_boundary {α : Type} [LinearOrderedField α] [FloorRing α]
    (t : α) (h1 : 1 / 2 < t) (h2 : t < 1) (g : List (List ℤ))
    (hg1 : ¬ 0 < gridAt g 2 1) (hg2 : ¬ 0 < gridAt g 2 2) :
    ddaLoop (sCfg t g) 8 (ddaInit (sCfg t g) 0) =
      some ⟨3, 2, 1, 1, ((1 : α) : WithTop α), ((1 / t : α) : WithTop α),
        ((3 : α) : WithTop α), ((1 / t + 1 / t : α) : WithTop α), 0, 2⟩ := by
  have ht : 0 < t := by linarith
  have hc1 : ((1 : α) : WithTop α) < ((1 / t : α) : WithTop α) := by
    rw [WithTop.coe_lt_coe, lt_div_iff ht]
    linarith
  have hc2 : ¬ ((2 : α) : WithTop α) < ((1 / t : α) : WithTop α) := by
    rw [WithTop.coe_lt_coe, lt_div_iff ht]
    intro hcon
    linarith
  have hc3 : ((2 : α) : WithTop α) < ((1 / t + 1 / t : α) : WithTop α) := by
    rw [WithTop.coe_lt_coe]
    have h2t : (2 : α) * t < 2 := by linarith
    have : (2 : α) < 2 / t := by
      rw [lt_div_iff ht]
      linarith
    calc (2 : α) < 2 / t := this
      _ = 1 / t + 1 / t := by ring
  have hs1 : ddaStep (sCfg t g)
      ⟨1, 1, 1, 1, ((1 : α) : WithTop α), ((1 / t : α) : WithTop α),
        ((1 : α) : WithTop α), ((1 / t : α) : WithTop α), -1, 0⟩ =
      ⟨2, 1, 1, 1, ((1 : α) : WithTop α), ((1 / t : α) : WithTop α),
        ((2 : α) : WithTop α), ((1 / t : α) : WithTop α), 0, 0⟩ := by
    rw [ddaStep]
    have hadv : ddaAdvance
        (⟨1, 1, 1, 1, ((1 : α) : WithTop α), ((1 / t : α) : WithTop α),
          ((1 : α) : WithTop α), ((1 / t : α) : WithTop α), -1, 0⟩ :
            DDAState α) =
        ⟨2, 1, 1, 1, ((1 : α) : WithTop α), ((1 / t : α) : WithTop α),
          ((2 : α) : WithTop α), ((1 / t : α) : WithTop α), 0, 0⟩ := by
      rw [ddaAdvance, if_pos hc1]
      norm_num [← WithTop.coe_add]
    rw [hadv, ddaCheck]
    dsimp only
    rw [show inBounds (sCfg t g) 2 1 = true from rfl]
    rw [if_pos rfl, show (sCfg t g).grid = g from rfl, if_neg hg1]
  have hs2 : ddaStep (sCfg t g)
      ⟨2, 1, 1, 1, ((1 : α) : WithTop α), ((1 / t : α) : WithTop α),
        ((2 : α) : WithTop α), ((1 / t : α) : WithTop α), 0, 0⟩ =
      ⟨2, 2, 1, 1, ((1 : α) : WithTop α), ((1 / t : α) : WithTop α),
        ((2 : α) : WithTop α), ((1 / t + 1 / t : α) : WithTop α), 1, 0⟩ := by
    rw [ddaStep]
    have hadv : ddaAdvance
        (⟨2, 1, 1, 1, ((1 : α) : WithTop α), ((1 / t : α) : WithTop α),
          ((2 : α) : WithTop α), ((1 / t : α) : WithTop α), 0, 0⟩ :
            DDAState α) =
        ⟨2, 2, 1, 1, ((1 : α) : WithTop α), ((1 / t : α) : WithTop α),
          ((2 : α) : WithTop α), ((1 / t + 1 / t : α) : WithTop α), 1, 0⟩ := by
      rw [ddaAdvance, if_neg hc2]
      norm_num [← WithTop.coe_add]
    rw [hadv, ddaCheck]
    dsimp only
    rw [show inBounds (sCfg t g) 2 2 = true from rfl]
    rw [if_pos rfl, show (sCfg t g).grid = g from rfl, if_neg hg2]
  have hs3 : ddaStep (sCfg t g)
      ⟨2, 2, 1, 1, ((1 : α) : WithTop α), ((1 / t : α) : WithTop α),
        ((2 : α) : WithTop α), ((1 / t + 1 / t : α) : WithTop α), 1, 0⟩ =
      ⟨3, 2, 1, 1, ((1 : α) : WithTop α), ((1 / t : α) : WithTop α),
        ((3 : α) : WithTop α), ((1 / t + 1 / t : α) : WithTop α), 0, 2⟩ := by
    rw [ddaStep]
    have hadv : ddaAdvance
        (⟨2, 2, 1, 1, ((1 : α) : WithTop α), ((1 / t : α) : WithTop α),
          ((2 : α) : WithTop α), ((1 / t + 1 / t : α) : WithTop α), 1, 0⟩ :
            DDAState α) =
        ⟨3, 2, 1, 1, ((1 : α) : WithTop α), ((1 / t : α) : WithTop α),
          ((3 : α) : WithTop α), ((1 / t + 1 / t : α) : WithTop α), 0, 0⟩ := by
      rw [ddaAdvance, if_pos hc3]
      norm_num [← WithTop.coe_add]
    rw [hadv, ddaCheck]
    dsimp only
    rw [show inBounds (sCfg t g) 3 2 = false from rfl]
    rw [if_neg (by simp)]
  rw [ddaInit_sCfg t ht g]
  rw [show (8 : ℕ) = 7 + 1 from rfl, ddaLoop_succ, hs1]
  rw [if_pos rfl]
  rw [show (7 : ℕ) = 6 + 1 from rfl, ddaLoop_succ, hs2]
  rw [if_pos rfl]
  rw [show (6 : ℕ) = 5 + 1 from rfl, ddaLoop_succ, hs3]
  rw [if_neg (by norm_num)]

/-- Modelled from the spec: `geom.Radians` (not under src/) converts the
configured FOV of 70 degrees to radians (`NewCamera`, camera.go:105-106). -/
noncomputable def radiansDeg (deg : ℝ) : ℝ := deg * Real.pi / 180

/-- Method `GetVecForAngle` (camera.go:800-802):
`(fovDepth*cos(angle), fovDepth*sin(angle))`. -/
noncomputable def getVecForAngle (fovDepth angle : ℝ) : Vec2 ℝ :=
  ⟨fovDepth * Real.cos angle, fovDepth * Real.sin angle⟩

/-- Method `GetVecForAngleLength` (camera.go:796-798). -/
noncomputable def getVecForAngleLength (angle length : ℝ) : Vec2 ℝ :=
  ⟨length * Real.cos angle, length * Real.sin angle⟩

/-- Method `GetAngleFromVec` (camera.go:791-793): `math.Atan2(dir.Y, dir.X)`,
modelled as the argument of the complex number `x + y*i`. -/
noncomputable def getAngleFromVec (v : Vec2 ℝ) : ℝ := Complex.arg ⟨v.x, v.y⟩

/-- The vector length computed inside `GetVecForFov` (camera.go:816):
`sqrt(x^2 + y^2)`. -/
noncomputable def vecLength (v : Vec2 ℝ) : ℝ := Real.sqrt (v.x ^ 2 + v.y ^ 2)

/-- Method `GetVecForFov` (camera.go:813-821): subtract from `dir` the vector at
angle `angle + fovAngle/2` of length `|dir| / cos(fovAngle/2)`. -/
noncomputable def getVecForFov (fovAngle : ℝ) (dir : Vec2 ℝ) : Vec2 ℝ :=
  ⟨dir.x - (vecLength dir / Real.cos (fovAngle / 2)) *
      Real.cos (getAngleFromVec dir + fovAngle / 2),
    dir.y - (vecLength dir / Real.cos (fovAngle / 2)) *
      Real.sin (getAngleFromVec dir + fovAngle / 2)⟩

/-- The camera pose fields read and written by `SetHeadingAngle`. -/
structure CameraPose where
  dir : Vec2 ℝ
  plane : Vec2 ℝ
  fovAngle : ℝ
  fovDepth : ℝ

/-- Method `SetHeadingAngle` (camera.go:771-775): recompute `dir` from the heading
and `plane` from the new `dir`. -/
noncomputable def setHeadingAngle (c : CameraPose) (heading : ℝ) : CameraPose :=
  { c with dir := getVecForAngle c.fovDepth heading,
           plane := getVecForFov c.fovAngle (getVecForAngle c.fovDepth heading) }

/-- The direction vector produced by `NewCamera` (camera.go:112):
`GetVecForAngle(0)` with `fovDepth = 1`. -/
noncomputable def c1Dir : Vec2 ℝ := getVecForAngle 1 0

/-- The camera plane produced by `NewCamera` (camera.go:115):
`GetVecForFov(dir)` with `fovAngle = Radians(70)`. -/
noncomputable def c1Plane : Vec2 ℝ := getVecForFov (radiansDeg 70) c1Dir

/-- The C1 scenario configuration: `NewCamera` pose (position `(1,1)`,
heading 0) with viewport width 1 over the 3×3 `c1Grid`. -/
noncomputable def c1Cfg : DDACfg ℝ := ⟨1, ⟨1, 1⟩, c1Dir, c1Plane, 3, 3, c1Grid⟩

theorem c1Dir_eq : c1Dir = ⟨1, 0⟩ := by
  unfold c1Dir getVecForAngle
  norm_num

theorem half_fov_bounds :
    radiansDeg 70 / 2 = 7 * Real.pi / 36 ∧ 0 < 7 * Real.pi / 36 ∧
      7 * Real.pi / 36 < Real.pi / 4 := by
  have hpi := Real.pi_pos
  refine ⟨?_, ?_, ?_⟩
  · unfold radiansDeg
    ring
  · positivity
  · nlinarith

theorem tan35_bounds :
    1 / 2 < Real.tan (radiansDeg 70 / 2) ∧ Real.tan (radiansDeg 70 / 2) < 1 := by
  obtain ⟨heq, hpos, hlt4⟩ := half_fov_bounds
  have hpi := Real.pi_pos
  have hpi3 := Real.pi_gt_three
  have hhalf : 7 * Real.pi / 36 < Real.pi / 2 := by nlinarith
  constructor
  · have h1 : 1 / 2 < 7 * Real.pi / 36 := by nlinarith
    have h2 : 7 * Real.pi / 36 < Real.tan (7 * Real.pi / 36) :=
      Real.lt_tan hpos hhalf
    rw [heq]
    linarith
  · have h3 : Real.tan (7 * Real.pi / 36) < Real.tan (Real.pi / 4) :=
      Real.tan_lt_tan_of_nonneg_of_lt_pi_div_two hpos.le
        (by nlinarith) hlt4
    rw [heq]
    rw [Real.tan_pi_div_four] at h3
    exact h3

theorem cos_half_fov_pos : 0 < Real.cos (radiansDeg 70 / 2) := by
  obtain ⟨heq, hpos, hlt4⟩ := half_fov_bounds
  have hpi := Real.pi_pos
  rw [heq]
  apply Real.cos_pos_of_mem_Ioo
  constructor
  · nlinarith
  · nlinarith

theorem c1Plane_eq : c1Plane = ⟨0, -Real.tan (radiansDeg 70 / 2)⟩ := by
  have hcos := cos_half_fov_pos
  have hcne : Real.cos (radiansDeg 70 / 2) ≠ 0 := ne_of_gt hcos
  unfold c1Plane getVecForFov
  rw [c1Dir_eq]
  have harg : getAngleFromVec (⟨1, 0⟩ : Vec2 ℝ) = 0 := by
    unfold getAngleFromVec
    have h1 : ((⟨1, 0⟩ : ℂ)) = (1 : ℂ) := by
      norm_num [Complex.ext_iff]
    rw [h1, Complex.arg_one]
  have hlen : vecLength (⟨1, 0⟩ : Vec2 ℝ) = 1 := by
    unfold vecLength
    norm_num
  rw [harg, hlen]
  have hx : (1 : ℝ) - 1 / Real.cos (radiansDeg 70 / 2) *
      Real.cos (0 + radiansDeg 70 / 2) = 0 := by
    rw [zero_add]
    field_simp
  have hy : (0 : ℝ) - 1 / Real.cos (radiansDeg 70 / 2) *
      Real.sin (0 + radiansDeg 70 / 2) = -Real.tan (radiansDeg 70 / 2) := by
    rw [zero_add, Real.tan_eq_sin_div_cos]
    field_simp
  rw [show (⟨1, 0⟩ : Vec2 ℝ).x = 1 from rfl, show (⟨1, 0⟩ : Vec2 ℝ).y = 0 from rfl]
  rw [hx, hy]

/-- C1: end-to-end single-ray scenario.  With the 1-level 3×3 map that is all
zero except `grid[2][2] = 1`, the `NewCamera` pose (position `(1,1)`, heading
angle 0 = east) and a viewport of width 1, casting screen column 0 terminates
with a wall hit (`hit = 1`) at the DDA cell `mapX = 2`, `mapY = 2`, with the
definite side flag 1 (north-south wall), and resolves texture id 0
(`CurrTex[0]` is set to texture 0). -/
theorem castLevel_c1_end_to_end :
    castLevelOut c1Cfg 0 8 = some ⟨1, 2, 2, 1, 0, 0, some 0⟩ := by
  obtain ⟨hb1, hb2⟩ := tan35_bounds
  have hcfg : c1Cfg = sCfg (Real.tan (radiansDeg 70 / 2)) c1Grid := by
    unfold c1Cfg sCfg
    rw [c1Dir_eq, c1Plane_eq]
  rw [hcfg]
  unfold castLevelOut
  rw [ddaRun_sCfg_wall _ hb1 hb2 c1Grid (by decide) (by decide)]
  rfl

theorem vecLength_getVecForAngle (f θ : ℝ) (hf : 0 ≤ f) :
    vecLength (getVecForAngle f θ) = f := by
  unfold vecLength getVecForAngle
  dsimp only
  have hsq : (f * Real.cos θ) ^ 2 + (f * Real.sin θ) ^ 2 = f ^ 2 := by
    have h := Real.sin_sq_add_cos_sq θ
    nlinarith [h]
  rw [hsq, Real.sqrt_sq hf]

theorem setHeadingAngle_fovDepth (c : CameraPose) (θ : ℝ) :
    (setHeadingAngle c θ).fovDepth = c.fovDepth := rfl

theorem foldl_setHeadingAngle_norm :
    ∀ (hs : List ℝ) (c : CameraPose) (θ : ℝ), 0 ≤ c.fovDepth →
      vecLength (List.foldl setHeadingAngle (setHeadingAngle c θ) hs).dir =
        c.fovDepth ∧
      (List.foldl setHeadingAngle (setHeadingAngle c θ) hs).fovDepth =
        c.fovDepth := by
  intro hs
  induction hs with
  | nil =>
    intro c θ hf
    refine ⟨?_, rfl⟩
    exact vecLength_getVecForAngle c.fovDepth θ hf
  | cons θ2 hs ih =>
    intro c θ hf
    have h2 : 0 ≤ (setHeadingAngle c θ).fovDepth := hf
    have := ih (setHeadingAngle c θ) θ2 h2
    simpa using this

/-- C7: for every camera, after any sequence of `SetHeadingAngle` calls (at
least one), the Euclidean norm of `dir` equals the camera's fixed
(nonnegative) FOV depth, which the calls leave unchanged: `SetHeadingAngle`
sets `dir = (fovDepth*cos(heading), fovDepth*sin(heading))`. -/
theorem setHeadingAngle_norm_invariant (c : CameraPose) (θ : ℝ)
    (hs : List ℝ) (hf : 0 ≤ c.fovDepth) :
    vecLength (List.foldl setHeadingAngle c (θ :: hs)).dir = c.fovDepth ∧
      (List.foldl setHeadingAngle c (θ :: hs)).fovDepth = c.fovDepth := by
  have := foldl_setHeadingAngle_norm hs c θ hf
  simpa using this

/-- Concrete camera pose used for the C7 witness: the `NewCamera` pose values
(`fovDepth = 1`, `fovAngle = Radians(70)`). -/
noncomputable def c7Pose : CameraPose :=
  ⟨⟨1, 0⟩, ⟨0, 1⟩, radiansDeg 70, 1⟩

theorem setHeadingAngle_norm_invariant_witness :
    vecLength (List.foldl setHeadingAngle c7Pose [0]).dir = 1 ∧
      (List.foldl setHeadingAngle c7Pose [0]).fovDepth = 1 :=
  setHeadingAngle_norm_invariant c7Pose 0 [] zero_le_one

theorem ddaStep_sCfg_first {α : Type} [LinearOrderedField α] [FloorRing α]
    (t : α) (h1 : 1 / 2 < t) (h2 : t < 1) (g : List (List ℤ))
    (hg1 : ¬ 0 < gridAt g 2 1) :
    ddaStep (sCfg t g)
      ⟨1, 1, 1, 1, ((1 : α) : WithTop α), ((1 / t : α) : WithTop α),
        ((1 : α) : WithTop α), ((1 / t : α) : WithTop α), -1, 0⟩ =
      ⟨2, 1, 1, 1, ((1 : α) : WithTop α), ((1 / t : α) : WithTop α),
        ((2 : α) : WithTop α), ((1 / t : α) : WithTop α), 0, 0⟩ := by
  have ht : 0 < t := by linarith
  have hc1 : ((1 : α) : WithTop α) < ((1 / t : α) : WithTop α) := by
    rw [WithTop.coe_lt_coe, lt_div_iff ht]
    linarith
  rw [ddaStep]
  have hadv : ddaAdvance
      (⟨1, 1, 1, 1, ((1 : α) : WithTop α), ((1 / t : α) : WithTop α),
        ((1 : α) : WithTop α), ((1 / t : α) : WithTop α), -1, 0⟩ :
          DDAState α) =
      ⟨2, 1, 1, 1, ((1 : α) : WithTop α), ((1 / t : α) : WithTop α),
        ((2 : α) : WithTop α), ((1 / t : α) : WithTop α), 0, 0⟩ := by
    rw [ddaAdvance, if_pos hc1]
    norm_num [← WithTop.coe_add]
  rw [hadv, ddaCheck]
  dsimp only
  rw [show inBounds (sCfg t g) 2 1 = true from rfl]
  rw [if_pos rfl, show (sCfg t g).grid = g from rfl, if_neg hg1]

/-- C3 (amended): each DDA iteration steps exactly one cell along the axis
with the strictly smaller accumulated side distance (x wins ties for y
otherwise), and the loop stops exactly on a positive (wall) tile in bounds
(`hit = 1`) or on leaving the map (`hit = 2`); it never stops on an in-bounds
tile with value `≤ 0` — in particular never on a zero tile, but non-zero
negative tiles are also passed through. -/
theorem dda_step_axis_and_stop {α : Type} [LinearOrderedField α]
    (cfg : DDACfg α) :
    (∀ st : DDAState α,
      (st.sideDistX < st.sideDistY →
        (ddaStep cfg st).mapX = st.mapX + st.stepX ∧
          (ddaStep cfg st).mapY = st.mapY ∧ (ddaStep cfg st).side = 0) ∧
      (¬ st.sideDistX < st.sideDistY →
        (ddaStep cfg st).mapX = st.mapX ∧
          (ddaStep cfg st).mapY = st.mapY + st.stepY ∧
          (ddaStep cfg st).side = 1)) ∧
    (∀ (n : ℕ) (st st' : DDAState α), st.hit = 0 →
      ddaLoop cfg n st = some st' →
      ((st'.hit = 1 ∧ inBounds cfg st'.mapX st'.mapY = true ∧
          0 < gridAt cfg.grid st'.mapX st'.mapY) ∨
        (st'.hit = 2 ∧ inBounds cfg st'.mapX st'.mapY = false))) := by
  constructor
  · intro st
    constructor
    · intro hc
      rcases ddaStep_move cfg st with ⟨_, h1, h2, h3⟩ | ⟨hnc, _, _, _⟩
      · exact ⟨h1, h2, h3⟩
      · exact absurd hc hnc
    · intro hnc
      rcases ddaStep_move cfg st with ⟨hc, _, _, _⟩ | ⟨_, h1, h2, h3⟩
      · exact absurd hc hnc
      · exact ⟨h1, h2, h3⟩
  · exact ddaLoop_hit_spec cfg

theorem dda_step_axis_and_stop_witness :
    (ddaStep (sCfg (3 / 4 : ℚ) c1Grid)
        (ddaInit (sCfg (3 / 4 : ℚ) c1Grid) 0)).mapX =
        (ddaInit (sCfg (3 / 4 : ℚ) c1Grid) 0).mapX +
          (ddaInit (sCfg (3 / 4 : ℚ) c1Grid) 0).stepX ∧
      (ddaStep (sCfg (3 / 4 : ℚ) c1Grid)
        (ddaInit (sCfg (3 / 4 : ℚ) c1Grid) 0)).mapY =
        (ddaInit (sCfg (3 / 4 : ℚ) c1Grid) 0).mapY ∧
      (ddaStep (sCfg (3 / 4 : ℚ) c1Grid)
        (ddaInit (sCfg (3 / 4 : ℚ) c1Grid) 0)).side = 0 := by
  have hinit := ddaInit_sCfg (3 / 4 : ℚ) (by norm_num) c1Grid
  refine ((dda_step_axis_and_stop (sCfg (3 / 4 : ℚ) c1Grid)).1
    (ddaInit (sCfg (3 / 4 : ℚ) c1Grid) 0)).1 ?_
  rw [hinit]
  show ((1 : ℚ) : WithTop ℚ) < ((1 / (3 / 4 : ℚ) : ℚ) : WithTop ℚ)
  rw [WithTop.coe_lt_coe]
  norm_num

/-- C3 counterexample: with the 3×3 map holding the non-zero (but passable)
tile `-1` at `grid[2][1]` and the wall `1` at `grid[2][2]`, the first DDA
iteration of the column-0 ray enters cell `(2,1)` — whose tile is non-zero —
yet does not stop there (`hit` stays 0), and the traversal finally stops at
`(2,2)`: the loop does not stop "exactly when the entered tile is non-zero". -/
theorem dda_nonzero_tile_counterexample :
    gridAt c3Grid 2 1 = -1 ∧
    (ddaStep (sCfg (3 / 4 : ℚ) c3Grid)
        (ddaInit (sCfg (3 / 4 : ℚ) c3Grid) 0)).mapX = 2 ∧
    (ddaStep (sCfg (3 / 4 : ℚ) c3Grid)
        (ddaInit (sCfg (3 / 4 : ℚ) c3Grid) 0)).mapY = 1 ∧
    (ddaStep (sCfg (3 / 4 : ℚ) c3Grid)
        (ddaInit (sCfg (3 / 4 : ℚ) c3Grid) 0)).hit = 0 ∧
    ddaLoop (sCfg (3 / 4 : ℚ) c3Grid) 8
        (ddaInit (sCfg (3 / 4 : ℚ) c3Grid) 0) =
      some ⟨2, 2, 1, 1, ((1 : ℚ) : WithTop ℚ),
        ((1 / (3 / 4 : ℚ) : ℚ) : WithTop ℚ), ((2 : ℚ) : WithTop ℚ),
        ((1 / (3 / 4 : ℚ) + 1 / (3 / 4 : ℚ) : ℚ) : WithTop ℚ), 1, 1⟩ := by
  have hinit := ddaInit_sCfg (3 / 4 : ℚ) (by norm_num) c3Grid
  have hstep := ddaStep_sCfg_first (3 / 4 : ℚ) (by norm_num) (by norm_num)
    c3Grid (by decide)
  have hrun := ddaRun_sCfg_wall (3 / 4 : ℚ) (by norm_num) (by norm_num)
    c3Grid (by decide) (by decide)
  refine ⟨by decide, ?_, ?_, ?_, hrun⟩ <;> rw [hinit, hstep]

/-- C4: boundary-hit resolution.  For every camera configuration and screen
column, given enough fuel (`ddaFuel` suffices) `castLevel` completes, and
whenever the DDA stopped by leaving the map (`hit = 2`) the column resolves
with `texNum = -1`, i.e. `CurrTex[x]` is set to `nil` (`none`) rather than
failing. -/
theorem castLevel_boundary_nil {α : Type} [LinearOrderedField α]
    [FloorRing α] (cfg : DDACfg α) (x n : ℕ) (hn : ddaFuel cfg x ≤ n) :
    (castLevelOut cfg x n).isSome = true ∧
      ∀ out : CastOut, castLevelOut cfg x n = some out → out.hit = 2 →
        out.currTex = none := by
  constructor
  · have hsome : (ddaLoop cfg n (ddaInit cfg x)).isSome = true := by
      apply ddaLoop_isSome_of_measure cfg n (ddaInit cfg x) (ddaInit_hit cfg x)
        (ddaInit_stepX cfg x) (ddaInit_stepY cfg x)
      unfold ddaFuel at hn
      omega
    unfold castLevelOut
    rcases ho : ddaLoop cfg n (ddaInit cfg x) with _ | st
    · rw [ho] at hsome
      simp at hsome
    · rfl
  · intro out heq hhit2
    unfold castLevelOut at heq
    rcases Option.map_eq_some'.1 heq with ⟨st, hst, hout⟩
    have hspec := ddaLoop_hit_spec cfg n (ddaInit cfg x) st
      (ddaInit_hit cfg x) hst
    have hhit : st.hit = 2 := by
      rw [← hout] at hhit2
      exact hhit2
    have hinb : inBounds cfg st.mapX st.mapY = false := by
      rcases hspec with ⟨h1, _, _⟩ | ⟨_, h2⟩
      · rw [h1] at hhit; omega
      · exact h2
    rw [← hout]
    dsimp only
    rw [hinb]
    norm_num
    by_cases hside : st.side = 0
    · rw [if_pos hside]
      decide
    · rw [if_neg hside]
      decide

theorem castLevel_boundary_nil_witness :
    (castLevelOut (sCfg (3 / 4 : ℚ) zeroGrid3) 0 8).isSome = true ∧
      ((castLevelOut (sCfg (3 / 4 : ℚ) zeroGrid3) 0 8).getD
          castOutDflt).currTex = none := by
  have hfuel : ddaFuel (sCfg (3 / 4 : ℚ) zeroGrid3) 0 ≤ 8 := by
    rw [ddaFuel, ddaInit_sCfg (3 / 4 : ℚ) (by norm_num) zeroGrid3]
    decide
  have h := castLevel_boundary_nil (sCfg (3 / 4 : ℚ) zeroGrid3) 0 8 hfuel
  have hrun : castLevelOut (sCfg (3 / 4 : ℚ) zeroGrid3) 0 8 =
      some ⟨2, 3, 2, 0, -1, -1, none⟩ := by
    unfold castLevelOut
    rw [ddaRun_sCfg_boundary (3 / 4 : ℚ) (by norm_num) (by norm_num)
      zeroGrid3 (by decide) (by decide)]
    rfl
  refine ⟨h.1, ?_⟩
  rw [hrun]
  exact h.2 ⟨2, 3, 2, 0, -1, -1, none⟩ hrun rfl

/-- C10: DDA loop termination.  For every camera position, direction and
plane vectors (including degenerate rays whose `deltaDist` is infinite) and
every screen column, the DDA traversal terminates: each iteration moves
`mapX` or `mapY` by its fixed `±1` step, so with fuel `ddaFuel` (the cell
distance to the map boundary along both step directions plus one) the loop
always returns a result. -/
theorem dda_loop_terminates {α : Type} [LinearOrderedField α] [FloorRing α]
    (cfg : DDACfg α) (x n : ℕ) (hn : ddaFuel cfg x ≤ n) :
    (ddaLoop cfg n (ddaInit cfg x)).isSome = true := by
  apply ddaLoop_isSome_of_measure cfg n (ddaInit cfg x) (ddaInit_hit cfg x)
    (ddaInit_stepX cfg x) (ddaInit_stepY cfg x)
  unfold ddaFuel at hn
  omega

theorem dda_loop_terminates_witness :
    (ddaLoop (sCfg (3 / 4 : ℚ) c3Grid) 8
        (ddaInit (sCfg (3 / 4 : ℚ) c3Grid) 0)).isSome = true := by
  apply dda_loop_terminates (sCfg (3 / 4 : ℚ) c3Grid) 0 8
  rw [ddaFuel, ddaInit_sCfg (3 / 4 : ℚ) (by norm_num) c3Grid]
  decide

/-- C8: side-0 texture remap.  The sequential pair of if/else-if blocks of
camera.go:332-344 realises exactly the table `{3→4, 4→3, 1→4, 2→3}` (all
other ids unchanged), and `castLevel` applies it to the raw texture id
exactly when the hit side is 0 — side-1 columns keep the raw id. -/
theorem texRemap_side0_spec {α : Type} [LinearOrderedField α] [FloorRing α] :
    (∀ t : ℤ, texRemapSide0 t =
      if t = 3 then 4 else if t = 4 then 3 else if t = 1 then 4
      else if t = 2 then 3 else t) ∧
    ∀ (cfg : DDACfg α) (x n : ℕ) (out : CastOut),
      castLevelOut cfg x n = some out →
      out.texNum =
        if out.side = 0 then texRemapSide0 out.rawTexNum else out.rawTexNum := by
  constructor
  · intro t
    simp only [texRemapSide0]
    split_ifs <;> omega
  · intro cfg x n out heq
    unfold castLevelOut at heq
    rcases Option.map_eq_some'.1 heq with ⟨st, _, hout⟩
    rw [← hout]

theorem texRemap_side0_spec_witness :
    texRemapSide0 1 = 4 ∧
    ((castLevelOut (sCfg (3 / 4 : ℚ) c3Grid) 0 8).getD castOutDflt).texNum =
      if ((castLevelOut (sCfg (3 / 4 : ℚ) c3Grid) 0 8).getD
          castOutDflt).side = 0 then
        texRemapSide0 ((castLevelOut (sCfg (3 / 4 : ℚ) c3Grid) 0 8).getD
          castOutDflt).rawTexNum
      else ((castLevelOut (sCfg (3 / 4 : ℚ) c3Grid) 0 8).getD
          castOutDflt).rawTexNum := by
  have h := texRemap_side0_spec (α := ℚ)
  have hrun : castLevelOut (sCfg (3 / 4 : ℚ) c3Grid) 0 8 =
      some ⟨1, 2, 2, 1, 0, 0, some 0⟩ := by
    unfold castLevelOut
    rw [ddaRun_sCfg_wall (3 / 4 : ℚ) (by norm_num) (by norm_num)
      c3Grid (by decide) (by decide)]
    rfl
  constructor
  · rw [h.1 1]
    decide
  · rw [hrun]
    exact h.2 (sCfg (3 / 4 : ℚ) c3Grid) 0 8 ⟨1, 2, 2, 1, 0, 0, some 0⟩ hrun

/-- C6: fully occluded sprite clears its slot.  If the sprite's transformed
depth fails the z-buffer part of the per-column visibility test at every
candidate column of its horizontal extent (it is not strictly less than the
stored wall distance anywhere), then no column passes the visibility test,
`renderSprite` stays false and `castSprite` leaves the sprite's level-buffer
slot cleared (`none`), so the compositor skips it. -/
theorem castSprite_occluded_none {α : Type} [LinearOrderedField α]
    [FloorRing α] (s : SpriteIn α)
    (h : ∀ st ∈ candidateStripes s, ¬ spriteTransformY s < zBufferAt s st) :
    castSprite s = none := by
  unfold castSprite
  rw [if_neg]
  simp only [List.any_eq_true, not_exists]
  intro st
  intro hhyp
  rcases hhyp with ⟨hmem, hvis⟩
  unfold visTest at hvis
  rw [decide_eq_true_eq] at hvis
  exact h st hmem hvis.2.2.2

theorem getD_replicate_self {γ : Type} (a : γ) :
    ∀ (n i : ℕ), (List.replicate n a).getD i a = a := by
  intro n
  induction n with
  | zero => intro i; rfl
  | succ n ih =>
    intro i
    cases i with
    | zero => rfl
    | succ i => exact ih i

/-- Sprite-caster input for the C6 witness: camera at the origin facing east
with plane `(0,1)`, a sprite 2 units ahead, and a z-buffer of walls at
distance 0 everywhere, so the depth test fails at every column. -/
def c6In : SpriteIn ℚ :=
  ⟨20, 20, 0, 0, 0, 0, 1, 0, 0, 1, 64, List.replicate 20 0,
    2, 0, 1 / 2, 1, 0, 64, 64, 0, 0⟩

theorem castSprite_occluded_none_witness : castSprite c6In = none := by
  apply castSprite_occluded_none
  intro st hmem
  have htY : spriteTransformY c6In = 2 := by
    unfold spriteTransformY c6In
    norm_num
  have hzb : zBufferAt c6In st = 0 := by
    unfold zBufferAt c6In
    exact getD_replicate_self 0 20 st.toNat
  rw [htY, hzb]
  norm_num

/-- C9 (implicit): screen column 0 never receives a sprite slice.  The
per-column visibility test requires `stripe > 0` strictly, so every slice a
sprite's level buffer holds after `castSprite` sits at a strictly positive
column: `CurrTex[0]`, `Cts[0]`, `Sv[0]` and `St[0]` are never written, even
when the sprite's extent covers column 0 and the z-buffer test would pass
there. -/
theorem castSprite_no_column_zero {α : Type} [LinearOrderedField α]
    [FloorRing α] (s : SpriteIn α) (ws : List SpriteSlice)
    (h : castSprite s = some ws) : noColumnZero ws := by
  unfold castSprite at h
  by_cases hany : (candidateStripes s).any (visTest s) = true
  · rw [if_pos hany] at h
    injection h with h2
    intro e he
    rw [← h2] at he
    rcases List.mem_filterMap.1 he with ⟨st, _, hw⟩
    unfold spriteWriteAt at hw
    by_cases hvis : visTest s st = true
    · rw [if_pos hvis] at hw
      have hst : 0 < st := by
        unfold visTest at hvis
        rw [decide_eq_true_eq] at hvis
        exact hvis.2.1
      split at hw
      · exact absurd hw (by simp)
      · split at hw
        · exact absurd hw (by simp)
        · injection hw with hw2
          rw [← hw2]
          exact hst
    · rw [if_neg hvis] at hw
      exact absurd hw (by simp)
  · rw [if_neg hany] at h
    exact absurd h (by simp)

/-- Sprite-caster input for the C9 witness: like `c6In` but with a z-buffer
of walls at distance 10, so the sprite at depth 2 is visible. -/
def c9In : SpriteIn ℚ :=
  ⟨20, 20, 0, 0, 0, 0, 1, 0, 0, 1, 64, List.replicate 20 10,
    2, 0, 1 / 2, 1, 0, 64, 64, 0, 0⟩

theorem castSprite_no_column_zero_witness :
    noColumnZero ((castSprite c9In).getD []) := by
  have htX : spriteTransformX c9In = 0 := by
    unfold spriteTransformX c9In
    norm_num
  have htY9 : spriteTransformY c9In = 2 := by
    unfold spriteTransformY c9In
    norm_num
  have hssx : spriteScreenX c9In = 10 := by
    unfold spriteScreenX
    rw [htX, htY9]
    show goInt (((20 : ℤ) : ℚ) / 2 * (1 + 0 / 2)) = 10
    rw [show (((20 : ℤ) : ℚ)) / 2 * (1 + 0 / 2) = ((10 : ℤ) : ℚ) from by
      norm_num]
    rw [goInt_intCast]
  have hsw9 : spriteWidthI c9In = 10 := by
    unfold spriteWidthI
    rw [htY9]
    show goInt (|((20 : ℤ) : ℚ) / 2| / (1 / 1)) = 10
    rw [show |((20 : ℤ) : ℚ) / 2| / (1 / 1) = ((10 : ℤ) : ℚ) from by
      norm_num]
    rw [goInt_intCast]
  have hdsx : spriteDrawStartX c9In = 5 := by
    unfold spriteDrawStartX
    rw [hsw9, hssx]
    decide
  have hdex : spriteDrawEndX c9In = 15 := by
    unfold spriteDrawEndX
    rw [hsw9, hssx]
    decide
  have hstr : candidateStripes c9In = [5, 6, 7, 8, 9, 10, 11, 12, 13, 14] := by
    unfold candidateStripes
    rw [hdex, hdsx]
    decide
  have hfun : visTest c9In = fun st => decide (0 < (2 : ℚ) ∧ 0 < st ∧
      st < c9In.w ∧ (2 : ℚ) < zBufferAt c9In st) := by
    funext st
    unfold visTest
    rw [htY9]
  have hany : (candidateStripes c9In).any (visTest c9In) = true := by
    rw [hstr, hfun]
    decide
  have hsome : castSprite c9In =
      some ((candidateStripes c9In).filterMap (spriteWriteAt c9In)) := by
    unfold castSprite
    rw [if_pos hany]
  have h := castSprite_no_column_zero c9In _ hsome
  rw [hsome]
  exact h

theorem goInt_edgeDist {α : Type} [LinearOrderedField α] [FloorRing α] :
    goInt ((edgeDist : α)) = 0 := by
  unfold goInt edgeDist
  rw [if_neg (by norm_num), Int.floor_eq_zero_iff]
  constructor <;> norm_num

theorem clampPair_eq {α : Type} [LinearOrderedField α] [FloorRing α]
    (size : ℤ) (a : α) :
    (if goInt a < 0 ∨ a < 0 then ((edgeDist : α), (0 : ℤ))
      else if size ≤ goInt a then
        ((size : α) - edgeDist, goInt ((size : α) - edgeDist))
      else (a, goInt a)) =
    (clampCoordAmended size a, goInt (clampCoordAmended size a)) := by
  unfold clampCoordAmended
  split_ifs with h1 h2
  · rw [goInt_edgeDist]
  · rfl
  · rfl

/-- C2 (amended): movement validation equals the following semantics — a
candidate equal to the current position is returned unchanged (without a tile
check); otherwise each coordinate is clamped only when it lies outside the
map (to `edgeDistance` inside the violated boundary, via
`clampCoordAmended`), in-map coordinates being kept verbatim even when closer
than `edgeDistance` to the boundary, and the position is updated to the
clamped target if and only if the level-0 tile under it has value `≤ 0`,
being left unchanged otherwise. -/
theorem getValidCameraMove_amended_spec {α : Type} [LinearOrderedField α]
    [FloorRing α] (mapW mapH : ℤ) (grid : List (List ℤ))
    (posX posY moveX moveY : α) :
    getValidCameraMove mapW mapH grid posX posY moveX moveY =
      amendedMove mapW mapH grid posX posY moveX moveY := by
  unfold getValidCameraMove amendedMove
  by_cases h0 : posX = moveX ∧ posY = moveY
  · rw [if_pos h0, if_pos h0]
  · rw [if_neg h0, if_neg h0]
    rw [clampPair_eq mapW moveX, clampPair_eq mapH moveY]

/-- C2 counterexample: starting at `(1,1)` in an all-passable 3×3 map and
moving west by `19/20` (a candidate `MoveCamera` produces with `dir = (-1,0)`
and speed `19/20`), the accepted new position is `(1/20, 1)`: the position
changed, yet its x coordinate is strictly closer than `edgeDistance = 1/10`
to the map edge — the candidate was not "clamped to lie at least the edge
margin inside" the map. -/
theorem move_clamp_margin_counterexample :
    moveCamera 3 3 zeroGrid3 (1 : ℚ) 1 (-1) 0 (19 / 20) = (1 / 20, 1) ∧
      (1 / 20 : ℚ) < edgeDist ∧ (1 / 20 : ℚ) ≠ 1 := by
  refine ⟨?_, by norm_num [edgeDist], by norm_num⟩
  unfold moveCamera getValidCameraMove
  have hg20 : goInt ((1 : ℚ) / 20) = 0 := by
    unfold goInt
    rw [if_neg (by norm_num), Int.floor_eq_zero_iff]
    constructor <;> norm_num
  have hcand : (1 : ℚ) + (-1) * (19 / 20) = 1 / 20 := by norm_num
  have hcandY : (1 : ℚ) + 0 * (19 / 20) = 1 := by norm_num
  rw [hcand, hcandY]
  rw [if_neg (show ¬ ((1 : ℚ) = 1 / 20 ∧ (1 : ℚ) = 1) from by
    rintro ⟨h, _⟩
    norm_num at h)]
  rw [if_neg (show ¬ (goInt ((1 : ℚ) / 20) < 0 ∨ (1 : ℚ) / 20 < 0) from by
    rw [hg20]
    norm_num)]
  rw [if_neg (show ¬ ((3 : ℤ) ≤ goInt ((1 : ℚ) / 20)) from by
    rw [hg20]
    norm_num)]
  rw [if_neg (show ¬ (goInt ((1 : ℚ)) < 0 ∨ (1 : ℚ) < 0) from by
    rw [goInt_one]
    norm_num)]
  rw [if_neg (show ¬ ((3 : ℤ) ≤ goInt ((1 : ℚ))) from by
    rw [goInt_one]
    norm_num)]
  rw [if_pos (show gridAt zeroGrid3 ((1 / 20 : ℚ), goInt ((1 : ℚ) / 20)).2
      (((1 : ℚ)), goInt ((1 : ℚ))).2 ≤ 0 from by
    rw [show ((1 / 20 : ℚ), goInt ((1 : ℚ) / 20)).2 = goInt ((1 : ℚ) / 20)
      from rfl]
    rw [show (((1 : ℚ)), goInt ((1 : ℚ))).2 = goInt ((1 : ℚ)) from rfl]
    rw [hg20, goInt_one]
    decide)]
